import Mathlib

/-! # Blob object codec (`pkg/objects/object_manager_blob.go`)

A shallow embedding of `SerializeBlob` and `DeserializeBlob` together with the
parts of the Go standard library they call (`encoding/binary`, `bytes`,
`encoding/base64`), followed by theorems about the two functions.

Conventions of the embedding:

* a Go `byte` is a `Fin 256`, a Go `uint32` a `Fin 4294967296`; a Go `[]byte`
  and a Go `string` are both a `List Byte` (a Go string is a byte sequence);
* a byte slice handed to the decoder is two lists: `data`, its elements up to its
  length, and `spare`, the bytes of its backing array between its length and its
  capacity; a slice expression on it is bounded by the capacity and reads the
  backing array, and panics when its upper bound exceeds the capacity;
* a call ends in one of three ways: a value, a returned `error`, or a run-time
  panic (`GoResult`);
* `uint16` arithmetic is `Nat` arithmetic followed by `% 65536`.
-/

namespace Objects

/-! ## Machine types -/

/-- A Go `byte`. -/
abbrev Byte := Fin 256

/-- A Go `uint32`. -/
abbrev U32 := Fin 4294967296

/-- The conversion `byte(v)`: the low eight bits. -/
def toByte (v : Nat) : Byte := ⟨v % 256, Nat.mod_lt _ (by decide)⟩

/-- The conversion `uint32(v)`: the low thirty-two bits. -/
def toU32 (v : Nat) : U32 := ⟨v % 4294967296, Nat.mod_lt _ (by decide)⟩

/-- The conversion `uint16(v)`: the low sixteen bits, kept as a natural number. -/
def toU16 (v : Nat) : Nat := v % 65536

/-! ## Outcomes -/

/-- The errors the two functions can return. The first four and the last two are
built with `errors.New` in the file; `EOF` and `ErrUnexpectedEOF` come out of
`binary.Read` unchanged. -/
inductive BlobError where
  /-- The error "objects: header is nil". -/
  | headerNil
  /-- The error "objects: data is too short to contain an ObjectHeader". -/
  | dataTooShort
  /-- The error "objects: null packet delimiter not found". -/
  | delimiterNotFound
  /-- The error "objects: data is too short to contain a complete ObjectHeader". -/
  | headerTooShort
  /-- The error `io.EOF`. -/
  | EOF
  /-- The error `io.ErrUnexpectedEOF`. -/
  | ErrUnexpectedEOF
  /-- The error "objects: failed to read codeID length". -/
  | lengthReadFailed
  /-- The error "objects: failed to decode codeID". -/
  | codeIDDecodeFailed
deriving DecidableEq, Repr

/-- The text of each error, as written in the source. -/
def BlobError.message : BlobError → String
  | .headerNil => "objects: header is nil"
  | .dataTooShort => "objects: data is too short to contain an ObjectHeader"
  | .delimiterNotFound => "objects: null packet delimiter not found"
  | .headerTooShort => "objects: data is too short to contain a complete ObjectHeader"
  | .EOF => "EOF"
  | .ErrUnexpectedEOF => "unexpected EOF"
  | .lengthReadFailed => "objects: failed to read codeID length"
  | .codeIDDecodeFailed => "objects: failed to decode codeID"

/-- How a Go call ends: with a value, with a returned error (and nil results),
or with a run-time panic. -/
inductive GoResult (α : Type) where
  | ok : α → GoResult α
  | error : BlobError → GoResult α
  | panic : GoResult α
deriving DecidableEq, Repr

/-- Sequencing: the first error or panic ends the call. -/
def GoResult.bind {α β : Type} (r : GoResult α) (f : α → GoResult β) : GoResult β :=
  match r with
  | .ok a => f a
  | .error e => .error e
  | .panic => .panic

/-- Whether the call returned a value. -/
def GoResult.isOk {α : Type} : GoResult α → Bool
  | .ok _ => true
  | _ => false

/-- Whether the call returned an error (and so nil results). -/
def GoResult.isError {α : Type} : GoResult α → Bool
  | .error _ => true
  | _ => false

/-! ## Data model -/

/-- Modelled from the spec: the `ObjectHeader` record, which the file uses but
does not declare. One flag, four unsigned 32-bit integers, and an identifier
that is a Go string, that is, arbitrary bytes. -/
structure ObjectHeader where
  isNativeLanguage : Bool
  languageID : U32
  languageVersionID : U32
  languageTypeID : U32
  codeTypeID : U32
  codeID : List Byte
deriving DecidableEq, Repr

/-- Modelled from the spec: the constant `PacketNullByte`, which the file uses
but does not declare; the delimiter byte, value 0x00. -/
def PacketNullByte : Byte := 0

/-! ## `encoding/binary`, big endian -/

/-- The bytes `binary.Write` appends for a `bool`: 1 or 0. -/
def writeBool (v : Bool) : List Byte := [if v then 1 else 0]

/-- The function `binary.BigEndian.PutUint32`. -/
def putUint32 (v : U32) : List Byte :=
  [toByte (v.val >>> 24), toByte (v.val >>> 16), toByte (v.val >>> 8), toByte v.val]

/-- The function `binary.BigEndian.PutUint16`, on a value already below 65536. -/
def putUint16 (v : Nat) : List Byte :=
  [toByte (v >>> 8), toByte v]

/-- The function `binary.BigEndian.Uint32` on a four-byte buffer. -/
def bigEndianUint32 (b : List Byte) : U32 :=
  toU32 ((b.getD 3 0).val ||| (b.getD 2 0).val <<< 8 ||| (b.getD 1 0).val <<< 16
    ||| (b.getD 0 0).val <<< 24)

/-- The function `binary.BigEndian.Uint16` on a two-byte buffer. -/
def bigEndianUint16 (b : List Byte) : Nat :=
  toU16 ((b.getD 1 0).val ||| (b.getD 0 0).val <<< 8)

/-- The function `io.ReadFull` on a fresh `bytes.Reader` over `r`, for a buffer
of `n >= 1` bytes: `EOF` when nothing can be read, `ErrUnexpectedEOF` when fewer
than `n` bytes can. -/
def readFull (r : List Byte) (n : Nat) : GoResult (List Byte) :=
  if r.length = 0 then .error .EOF
  else if r.length < n then .error .ErrUnexpectedEOF
  else .ok (r.take n)

/-- The call `binary.Read(bytes.NewReader(r), binary.BigEndian, &b)` for a `bool`. -/
def readBool (r : List Byte) : GoResult Bool :=
  (readFull r 1).bind fun bs => .ok (decide (bs.getD 0 0 ≠ 0))

/-- The call `binary.Read(bytes.NewReader(r), binary.BigEndian, &v)` for a `uint32`. -/
def readUint32 (r : List Byte) : GoResult U32 :=
  (readFull r 4).bind fun bs => .ok (bigEndianUint32 bs)

/-- The call `binary.Read(bytes.NewReader(r), binary.BigEndian, &v)` for a `uint16`. -/
def readUint16 (r : List Byte) : GoResult Nat :=
  (readFull r 2).bind fun bs => .ok (bigEndianUint16 bs)

/-! ## `bytes` and slice expressions -/

/-- The function `bytes.IndexByte`: the index of the first `c`, `none` for -1. -/
def IndexByte : List Byte → Byte → Option Nat
  | [], _ => none
  | b :: rest, c => if b = c then some 0 else (IndexByte rest c).map (· + 1)

/-- The slice expression `data[lo:hi]` on a slice with elements `data` and spare
capacity `spare`; it panics unless `lo <= hi <= cap(data)`, and its elements are those
of the backing array from `lo` up to `hi`. -/
def slice (data spare : List Byte) (lo hi : Nat) : GoResult (List Byte) :=
  if lo ≤ hi ∧ hi ≤ data.length + spare.length then .ok (((data ++ spare).take hi).drop lo)
  else .panic

/-- The slice expression `data[lo:]`, whose upper bound is `len(data)`; it panics unless
`lo <= len(data)`. -/
def sliceFrom (data : List Byte) (lo : Nat) : GoResult (List Byte) :=
  if lo ≤ data.length then .ok (data.drop lo) else .panic

/-! ## `encoding/base64`, `StdEncoding` -/

/-- The alphabet of `base64.StdEncoding`: `A`-`Z`, `a`-`z`, `0`-`9`, `+`, `/`. -/
def encodeStd : List Byte :=
  [65, 66, 67, 68, 69, 70, 71, 72, 73, 74, 75, 76, 77, 78, 79, 80, 81, 82, 83, 84, 85, 86,
   87, 88, 89, 90, 97, 98, 99, 100, 101, 102, 103, 104, 105, 106, 107, 108, 109, 110, 111,
   112, 113, 114, 115, 116, 117, 118, 119, 120, 121, 122, 48, 49, 50, 51, 52, 53, 54, 55,
   56, 57, 43, 47]

/-- The padding character `=` of `StdEncoding`. -/
def padChar : Byte := 61

/-- The table lookup `enc.encode[v]`, for a six-bit `v`. -/
def encodeAt (v : Nat) : Byte := encodeStd.getD v 0

/-- The table lookup `enc.decodeMap[c]`: the position of `c` in the alphabet, 0xFF for a
byte outside it. -/
def decodeMap (c : Byte) : Byte :=
  if encodeStd.indexOf c < 64 then toByte (encodeStd.indexOf c) else 255

/-- The function `(*Encoding).EncodeToString` of `StdEncoding`: three bytes give four
characters, a last group of one or two bytes is padded with `=`. -/
def EncodeToString : List Byte → List Byte
  | [] => []
  | [s0] =>
    let val := s0.val <<< 16
    [encodeAt (val >>> 18 &&& 0x3F), encodeAt (val >>> 12 &&& 0x3F), padChar, padChar]
  | [s0, s1] =>
    let val := s0.val <<< 16 ||| s1.val <<< 8
    [encodeAt (val >>> 18 &&& 0x3F), encodeAt (val >>> 12 &&& 0x3F),
     encodeAt (val >>> 6 &&& 0x3F), padChar]
  | s0 :: s1 :: s2 :: rest =>
    let val := s0.val <<< 16 ||| s1.val <<< 8 ||| s2.val
    encodeAt (val >>> 18 &&& 0x3F) :: encodeAt (val >>> 12 &&& 0x3F) ::
      encodeAt (val >>> 6 &&& 0x3F) :: encodeAt (val &&& 0x3F) :: EncodeToString rest

/-- The loops of `decodeQuantum` that skip `\n` and `\r`. -/
def skipNewlines : List Byte → List Byte
  | [] => []
  | c :: rest => if c = 10 ∨ c = 13 then skipNewlines rest else c :: rest

/-- The end of `decodeQuantum`: the six-bit digits of `dbuf` (a missing digit is 0)
are packed into 24 bits and the first `dlen - 1` bytes are written out. The
encoding is not strict, so the unused low bits are not inspected. -/
def quantumBytes (dbuf : List Byte) (dlen : Nat) : List Byte :=
  let val := (dbuf.getD 0 0).val <<< 18 ||| (dbuf.getD 1 0).val <<< 12
    ||| (dbuf.getD 2 0).val <<< 6 ||| (dbuf.getD 3 0).val
  [toByte (val >>> 16), toByte (val >>> 8), toByte (val >>> 0)].take (dlen - 1)

/-- The function `(*Encoding).Decode` of `StdEncoding` with its `decodeQuantum`, as one
recursion over the unread input `src[si:]`; `dbuf` holds the digits of the current
quantum read so far (`j` is its length). The result is `none` when Go returns a
`CorruptInputError`, else the decoded bytes. -/
def decodeFrom : List Byte → List Byte → Option (List Byte)
  | [], dbuf => if dbuf.length = 0 then some [] else none
  | c :: rest, dbuf =>
    if decodeMap c ≠ 255 then
      if dbuf.length = 3 then
        (decodeFrom rest []).map fun tail => quantumBytes (dbuf ++ [decodeMap c]) 4 ++ tail
      else decodeFrom rest (dbuf ++ [decodeMap c])
    else if c = 10 ∨ c = 13 then decodeFrom rest dbuf
    else if c ≠ padChar then none
    else if dbuf.length < 2 then none
    else if dbuf.length = 2 then
      match skipNewlines rest with
      | [] => none
      | c2 :: rest2 =>
        if c2 ≠ padChar then none
        else if (skipNewlines rest2).length ≠ 0 then none
        else some (quantumBytes dbuf 2)
    else if (skipNewlines rest).length ≠ 0 then none
    else some (quantumBytes dbuf 3)

/-- The function `(*Encoding).DecodeString` of `StdEncoding`. -/
def DecodeString (s : List Byte) : Option (List Byte) := decodeFrom s []

/-! ## The codec -/

/-- The method `SerializeBlob`. A nil header is `none`. Writes to a `bytes.Buffer`
do not fail, so the only error is the nil header. -/
def SerializeBlob (header : Option ObjectHeader) (data : List Byte) : GoResult (List Byte) :=
  match header with
  | none => .error .headerNil
  | some header =>
    let buffer : List Byte := []
    let buffer := buffer ++ writeBool header.isNativeLanguage
    let buffer := buffer ++ putUint32 header.languageID
    let buffer := buffer ++ putUint32 header.languageVersionID
    let buffer := buffer ++ putUint32 header.languageTypeID
    let buffer := buffer ++ putUint32 header.codeTypeID
    let encodedCodeID := EncodeToString header.codeID
    let codeIDBytes := encodedCodeID
    let codeIDBytesLength := toU16 codeIDBytes.length
    let buffer := buffer ++ putUint16 codeIDBytesLength
    let buffer := buffer ++ codeIDBytes
    let buffer := buffer ++ [PacketNullByte]
    let content := buffer ++ data
    .ok content

/-- The method `DeserializeBlob`, on the slice with elements `data` and spare capacity
`spare`. The sum `19+length` is `uint16` arithmetic. -/
def DeserializeBlob (data spare : List Byte) : GoResult (ObjectHeader × List Byte) :=
  if data.length < 1 then .error .dataTooShort
  else
    match IndexByte data PacketNullByte with
    | none => .error .delimiterNotFound
    | some delimiterIndex =>
      if delimiterIndex < 13 then .error .headerTooShort
      else
        (slice data spare 0 delimiterIndex).bind fun r0 =>
        (readBool r0).bind fun isNativeLanguage =>
        (slice data spare 1 delimiterIndex).bind fun r1 =>
        (readUint32 r1).bind fun languageID =>
        (slice data spare 5 delimiterIndex).bind fun r2 =>
        (readUint32 r2).bind fun languageVersionID =>
        (slice data spare 9 delimiterIndex).bind fun r3 =>
        (readUint32 r3).bind fun languageTypeID =>
        (slice data spare 13 delimiterIndex).bind fun r4 =>
        (readUint32 r4).bind fun codeTypeID =>
        (slice data spare 17 19).bind fun r5 =>
        (match readUint16 r5 with
          | GoResult.ok v => GoResult.ok v
          | GoResult.error _ => GoResult.error BlobError.lengthReadFailed
          | GoResult.panic => GoResult.panic).bind fun length =>
        (slice data spare 19 (toU16 (19 + length))).bind fun encodedCodeIDBytes =>
        match DecodeString encodedCodeIDBytes with
        | none => .error .codeIDDecodeFailed
        | some decodedCodeID =>
          (sliceFrom data (delimiterIndex + 1)).bind fun remainingData =>
          .ok ({ isNativeLanguage := isNativeLanguage
                 languageID := languageID
                 languageVersionID := languageVersionID
                 languageTypeID := languageTypeID
                 codeTypeID := codeTypeID
                 codeID := decodedCodeID }, remainingData)

/-- Decoding what the encoder produced for a header that is present; `spare` is what
the backing array of the encoder's output holds beyond its length. -/
def roundTrip (h : ObjectHeader) (p spare : List Byte) :
    GoResult (ObjectHeader × List Byte) :=
  (SerializeBlob (some h) p).bind fun content => DeserializeBlob content spare


/-! ## Big-endian forms in the words of the specification -/

/-- The four-byte big-endian form of `n`, most significant byte first, written with
division and remainder. -/
def be32 (n : Nat) : List Byte :=
  [toByte (n / 16777216 % 256), toByte (n / 65536 % 256), toByte (n / 256 % 256),
   toByte (n % 256)]

/-- The two-byte big-endian form of `n`, most significant byte first, written with
division and remainder. -/
def be16 (n : Nat) : List Byte :=
  [toByte (n / 256 % 256), toByte (n % 256)]

/-- The value of a four-byte big-endian buffer, written with multiplication and
addition. -/
def be32Value (b : List Byte) : Nat :=
  (b.getD 0 0).val * 16777216 + (b.getD 1 0).val * 65536 + (b.getD 2 0).val * 256
    + (b.getD 3 0).val

/-- The value of a two-byte big-endian buffer, written with multiplication and
addition. -/
def be16Value (b : List Byte) : Nat :=
  (b.getD 0 0).val * 256 + (b.getD 1 0).val

/-! ## Names for what the decoder reads at the fixed offsets -/

/-- The header the decoder assembles from the fixed offsets, given the decoded identifier. -/
def headerAt (data : List Byte) (codeID : List Byte) : ObjectHeader :=
  { isNativeLanguage := decide (data.getD 0 0 ≠ 0)
    languageID := bigEndianUint32 ((data.drop 1).take 4)
    languageVersionID := bigEndianUint32 ((data.drop 5).take 4)
    languageTypeID := bigEndianUint32 ((data.drop 9).take 4)
    codeTypeID := bigEndianUint32 ((data.drop 13).take 4)
    codeID := codeID }

/-- The length prefix the decoder reads at offsets 17 and 18 of a backing array. -/
def lengthAt (data : List Byte) : Nat := bigEndianUint16 ((data.drop 17).take 2)

/-! ## Padded base64 text in the words of the specification -/

/-- Whether a byte is a character of the standard alphabet: `A`-`Z`, `a`-`z`, `0`-`9`,
`+` or `/`. -/
def isAlphabet (c : Byte) : Bool :=
  (65 ≤ c.val && c.val ≤ 90) || (97 ≤ c.val && c.val ≤ 122) || (48 ≤ c.val && c.val ≤ 57)
    || c.val == 43 || c.val == 47

/-- Whether a byte sequence is a padded base64 string of the standard alphabet: groups
of four alphabet characters, where in the last group the fourth character, or the third
and the fourth, may be `=`. -/
def validPadded : List Byte → Bool
  | [] => true
  | a :: b :: c :: d :: rest =>
    isAlphabet a && isAlphabet b &&
      (if rest.isEmpty then
        (isAlphabet c && (isAlphabet d || d == padChar)) || (c == padChar && d == padChar)
      else isAlphabet c && isAlphabet d && validPadded rest)
  | _ => false

/-- A byte sequence without its `\n` and `\r` bytes. -/
def stripNewlines (s : List Byte) : List Byte :=
  s.filter fun c => !(c == 10 || c == 13)

/-! ## Lemmas on the library model -/

theorem toByte_mod (n : Nat) : toByte (n % 256) = toByte n := by
  simp [toByte]

theorem putUint32_eq_be32 (v : U32) : putUint32 v = be32 v.val := by
  simp [putUint32, be32, toByte, Nat.shiftRight_eq_div_pow]

theorem putUint16_eq_be16 (v : Nat) : putUint16 v = be16 v := by
  simp [putUint16, be16, toByte, Nat.shiftRight_eq_div_pow]

theorem mask_lt (x : Nat) : x &&& 0x3F < 64 := by
  have h : x &&& 0x3F = x % 64 := Nat.and_pow_two_sub_one_eq_mod x 6
  omega

theorem encodeAt_ne_zero_fin : ∀ v : Fin 64, encodeAt v.val ≠ 0 := by decide

theorem encodeAt_ne_zero (x : Nat) : encodeAt (x &&& 0x3F) ≠ 0 :=
  encodeAt_ne_zero_fin ⟨x &&& 0x3F, mask_lt x⟩

theorem EncodeToString_ne_zero (l : List Byte) : ∀ b ∈ EncodeToString l, b ≠ 0 := by
  induction l using EncodeToString.induct with
  | case1 => simp [EncodeToString]
  | case2 s0 =>
    intro b hb
    simp only [EncodeToString, List.mem_cons, List.mem_singleton, List.not_mem_nil, or_false] at hb
    rcases hb with rfl | rfl | rfl | rfl
    · exact encodeAt_ne_zero _
    · exact encodeAt_ne_zero _
    · decide
    · decide
  | case3 s0 s1 =>
    intro b hb
    simp only [EncodeToString, List.mem_cons, List.mem_singleton, List.not_mem_nil, or_false] at hb
    rcases hb with rfl | rfl | rfl | rfl
    · exact encodeAt_ne_zero _
    · exact encodeAt_ne_zero _
    · exact encodeAt_ne_zero _
    · decide
  | case4 s0 s1 s2 rest ih =>
    intro b hb
    simp only [EncodeToString, List.mem_cons] at hb
    rcases hb with rfl | rfl | rfl | rfl | hb
    · exact encodeAt_ne_zero _
    · exact encodeAt_ne_zero _
    · exact encodeAt_ne_zero _
    · exact encodeAt_ne_zero _
    · exact ih b hb

theorem EncodeToString_length (l : List Byte) :
    (EncodeToString l).length = 4 * ((l.length + 2) / 3) := by
  induction l using EncodeToString.induct with
  | case1 => simp [EncodeToString]
  | case2 s0 => simp [EncodeToString]
  | case3 s0 s1 => simp [EncodeToString]
  | case4 s0 s1 s2 rest ih =>
    simp only [EncodeToString, List.length_cons, ih]
    omega

/-! ## Base64: decoding an encoded sequence -/

theorem mask_eq_mod (x : Nat) : x &&& 0x3F = x % 64 := Nat.and_pow_two_sub_one_eq_mod x 6

theorem or_eq_add_of_mod (x y i : Nat) (hx : x % 2 ^ i = 0) (hy : y < 2 ^ i) :
    x ||| y = x + y := by
  have hx2 : x = 2 ^ i * (x / 2 ^ i) := by
    have := Nat.div_add_mod x (2 ^ i)
    omega
  rw [hx2]
  exact (Nat.mul_add_lt_is_or hy _).symm

theorem decodeMap_encodeAt_fin : ∀ v : Fin 64, decodeMap (encodeAt v.val) = toByte v.val := by
  decide

theorem toByte_ne_255_fin : ∀ v : Fin 64, toByte v.val ≠ 255 := by decide

theorem decodeFrom_digit (x : Nat) (rest dbuf : List Byte) :
    decodeFrom (encodeAt (x &&& 0x3F) :: rest) dbuf =
      if dbuf.length = 3 then
        (decodeFrom rest []).map fun tail => quantumBytes (dbuf ++ [toByte (x &&& 0x3F)]) 4 ++ tail
      else decodeFrom rest (dbuf ++ [toByte (x &&& 0x3F)]) := by
  have h1 := decodeMap_encodeAt_fin ⟨x &&& 0x3F, mask_lt x⟩
  have h2 := toByte_ne_255_fin ⟨x &&& 0x3F, mask_lt x⟩
  simp only at h1 h2
  rw [decodeFrom, h1, if_pos h2]

theorem decodeFrom_pad_two (d0 d1 : Byte) :
    decodeFrom [padChar, padChar] [d0, d1] = some (quantumBytes [d0, d1] 2) := by
  simp [decodeFrom, skipNewlines, show decodeMap padChar = 255 by decide,
    show padChar ≠ 10 by decide, show padChar ≠ 13 by decide]

theorem decodeFrom_pad_one (d0 d1 d2 : Byte) :
    decodeFrom [padChar] [d0, d1, d2] = some (quantumBytes [d0, d1, d2] 3) := by
  simp [decodeFrom, skipNewlines, show decodeMap padChar = 255 by decide,
    show padChar ≠ 10 by decide, show padChar ≠ 13 by decide]

theorem toByte_mask_val (x : Nat) : (toByte (x &&& 0x3F)).val = x % 64 := by
  rw [mask_eq_mod]
  simp only [toByte]
  omega

theorem pack_digits (q0 q1 q2 q3 : Nat) (h1 : q1 < 64) (h2 : q2 < 64) (h3 : q3 < 64) :
    q0 <<< 18 ||| q1 <<< 12 ||| q2 <<< 6 ||| q3 = q0 * 262144 + q1 * 4096 + q2 * 64 + q3 := by
  rw [Nat.shiftLeft_eq, Nat.shiftLeft_eq, Nat.shiftLeft_eq]
  have e1 : q0 * 2 ^ 18 ||| q1 * 2 ^ 12 = q0 * 2 ^ 18 + q1 * 2 ^ 12 :=
    or_eq_add_of_mod _ _ 18 (by omega) (by omega)
  rw [e1]
  have e2 : q0 * 2 ^ 18 + q1 * 2 ^ 12 ||| q2 * 2 ^ 6 = q0 * 2 ^ 18 + q1 * 2 ^ 12 + q2 * 2 ^ 6 :=
    or_eq_add_of_mod _ _ 12 (by omega) (by omega)
  rw [e2]
  have e3 : q0 * 2 ^ 18 + q1 * 2 ^ 12 + q2 * 2 ^ 6 ||| q3
      = q0 * 2 ^ 18 + q1 * 2 ^ 12 + q2 * 2 ^ 6 + q3 :=
    or_eq_add_of_mod _ _ 6 (by omega) (by omega)
  rw [e3]
  omega

theorem pack_bytes (a b c : Nat) (hb : b < 256) (hc : c < 256) :
    a <<< 16 ||| b <<< 8 ||| c = a * 65536 + b * 256 + c := by
  rw [Nat.shiftLeft_eq, Nat.shiftLeft_eq]
  have e1 : a * 2 ^ 16 ||| b * 2 ^ 8 = a * 2 ^ 16 + b * 2 ^ 8 :=
    or_eq_add_of_mod _ _ 16 (by omega) (by omega)
  rw [e1]
  have e2 : a * 2 ^ 16 + b * 2 ^ 8 ||| c = a * 2 ^ 16 + b * 2 ^ 8 + c :=
    or_eq_add_of_mod _ _ 8 (by omega) (by omega)
  rw [e2]
  omega

theorem quantumBytes_four (s0 s1 s2 : Byte) :
    quantumBytes
      [toByte ((s0.val <<< 16 ||| s1.val <<< 8 ||| s2.val) >>> 18 &&& 0x3F),
       toByte ((s0.val <<< 16 ||| s1.val <<< 8 ||| s2.val) >>> 12 &&& 0x3F),
       toByte ((s0.val <<< 16 ||| s1.val <<< 8 ||| s2.val) >>> 6 &&& 0x3F),
       toByte ((s0.val <<< 16 ||| s1.val <<< 8 ||| s2.val) &&& 0x3F)] 4 = [s0, s1, s2] := by
  have h0 := s0.isLt
  have h1 := s1.isLt
  have h2 := s2.isLt
  rw [pack_bytes _ _ _ h1 h2]
  simp only [quantumBytes, List.getD_cons_zero, List.getD_cons_succ, toByte_mask_val]
  rw [pack_digits _ _ _ _ (Nat.mod_lt _ (by decide)) (Nat.mod_lt _ (by decide))
    (Nat.mod_lt _ (by decide))]
  simp only [Nat.shiftRight_eq_div_pow, toByte, List.take, Nat.reduceSub]
  congr 1
  · apply Fin.ext
    simp only
    omega
  · congr 1
    · apply Fin.ext
      simp only
      omega
    · congr 1
      apply Fin.ext
      simp only
      omega

theorem quantumBytes_three (s0 s1 : Byte) :
    quantumBytes
      [toByte ((s0.val <<< 16 ||| s1.val <<< 8) >>> 18 &&& 0x3F),
       toByte ((s0.val <<< 16 ||| s1.val <<< 8) >>> 12 &&& 0x3F),
       toByte ((s0.val <<< 16 ||| s1.val <<< 8) >>> 6 &&& 0x3F)] 3 = [s0, s1] := by
  have h0 := s0.isLt
  have h1 := s1.isLt
  have hv : s0.val <<< 16 ||| s1.val <<< 8 = s0.val * 65536 + s1.val * 256 := by
    have := pack_bytes s0.val s1.val 0 h1 (by decide)
    simpa using this
  rw [hv]
  simp only [quantumBytes, List.getD_cons_zero, List.getD_cons_succ, List.getD_nil,
    toByte_mask_val, Fin.val_zero]
  rw [pack_digits _ _ _ _ (Nat.mod_lt _ (by decide)) (Nat.mod_lt _ (by decide)) (by decide)]
  simp only [Nat.shiftRight_eq_div_pow, toByte, List.take, Nat.reduceSub]
  congr 1
  · apply Fin.ext
    simp only
    omega
  · congr 1
    apply Fin.ext
    simp only
    omega

theorem quantumBytes_two (s0 : Byte) :
    quantumBytes
      [toByte ((s0.val <<< 16) >>> 18 &&& 0x3F),
       toByte ((s0.val <<< 16) >>> 12 &&& 0x3F)] 2 = [s0] := by
  have h0 := s0.isLt
  rw [Nat.shiftLeft_eq]
  simp only [quantumBytes, List.getD_cons_zero, List.getD_cons_succ, List.getD_nil,
    toByte_mask_val, Fin.val_zero]
  have := pack_digits ((s0.val * 2 ^ 16) >>> 18 % 64) ((s0.val * 2 ^ 16) >>> 12 % 64) 0 0
    (Nat.mod_lt _ (by decide)) (by decide) (by decide)
  simp only [Nat.zero_shiftLeft, Nat.or_zero] at this
  rw [Nat.or_zero, Nat.zero_shiftLeft, Nat.or_zero, this]
  simp only [Nat.shiftRight_eq_div_pow, toByte, List.take, Nat.reduceSub]
  congr 1
  apply Fin.ext
  simp only
  omega

/-- Decoding the padded base64 form of a byte sequence gives the sequence back. -/
theorem DecodeString_EncodeToString (l : List Byte) :
    DecodeString (EncodeToString l) = some l := by
  unfold DecodeString
  induction l using EncodeToString.induct with
  | case1 => simp [EncodeToString, decodeFrom]
  | case2 s0 =>
    simp only [EncodeToString]
    rw [decodeFrom_digit, if_neg (by simp), decodeFrom_digit, if_neg (by simp)]
    simp only [List.nil_append, List.cons_append]
    rw [decodeFrom_pad_two, quantumBytes_two]
  | case3 s0 s1 =>
    simp only [EncodeToString]
    rw [decodeFrom_digit, if_neg (by simp), decodeFrom_digit, if_neg (by simp),
      decodeFrom_digit, if_neg (by simp)]
    simp only [List.nil_append, List.cons_append]
    rw [decodeFrom_pad_one, quantumBytes_three]
  | case4 s0 s1 s2 rest ih =>
    simp only [EncodeToString]
    rw [decodeFrom_digit, if_neg (by simp), decodeFrom_digit, if_neg (by simp),
      decodeFrom_digit, if_neg (by simp), decodeFrom_digit, if_pos (by simp), ih]
    simp only [List.nil_append, List.cons_append, Option.map_some']
    rw [quantumBytes_four]
    rfl

/-! ## Lemmas on the delimiter scan and on slices -/

theorem IndexByte_some_lt (c : Byte) :
    ∀ (data : List Byte) (d : Nat), IndexByte data c = some d → d < data.length := by
  intro data
  induction data with
  | nil => intro d h; simp [IndexByte] at h
  | cons b rest ih =>
    intro d h
    simp only [IndexByte] at h
    split at h
    · simp only [Option.some.injEq] at h
      subst h
      simp
    · cases hr : IndexByte rest c with
      | none => simp [hr] at h
      | some k =>
        simp only [hr, Option.map_some', Option.some.injEq] at h
        subst h
        have := ih k hr
        simp only [List.length_cons]
        omega

theorem IndexByte_append (c : Byte) (post : List Byte) :
    ∀ pre : List Byte, (∀ b ∈ pre, b ≠ c) →
      IndexByte (pre ++ c :: post) c = some pre.length := by
  intro pre
  induction pre with
  | nil => intro _; simp [IndexByte]
  | cons b rest ih =>
    intro h
    have hb : b ≠ c := h b (List.mem_cons_self _ _)
    have hr : ∀ x ∈ rest, x ≠ c := fun x hx => h x (List.mem_cons_of_mem _ hx)
    simp [IndexByte, hb, ih hr]

theorem IndexByte_none (c : Byte) :
    ∀ data : List Byte, (∀ b ∈ data, b ≠ c) → IndexByte data c = none := by
  intro data
  induction data with
  | nil => intro _; rfl
  | cons b rest ih =>
    intro h
    have hb : b ≠ c := h b (List.mem_cons_self _ _)
    have hr : ∀ x ∈ rest, x ≠ c := fun x hx => h x (List.mem_cons_of_mem _ hx)
    simp [IndexByte, hb, ih hr]

theorem slice_ok (data spare : List Byte) (lo hi : Nat) (h1 : lo ≤ hi)
    (h2 : hi ≤ data.length) :
    slice data spare lo hi = .ok ((data.take hi).drop lo) := by
  have h3 : hi ≤ data.length + spare.length := by omega
  simp [slice, h1, h3, List.take_append_of_le_length h2]

theorem slice_cap_ok (data spare : List Byte) (lo hi : Nat) (h1 : lo ≤ hi)
    (h2 : hi ≤ data.length + spare.length) :
    slice data spare lo hi = .ok (((data ++ spare).take hi).drop lo) := by
  simp [slice, h1, h2]

theorem slice_panic (data spare : List Byte) (lo hi : Nat)
    (h : hi < lo ∨ data.length + spare.length < hi) :
    slice data spare lo hi = .panic := by
  have : ¬ (lo ≤ hi ∧ hi ≤ data.length + spare.length) := by omega
  simp [slice, this]

theorem readBool_ok (r : List Byte) (h : 1 ≤ r.length) :
    readBool r = .ok (decide (r.getD 0 0 ≠ 0)) := by
  cases r with
  | nil => simp at h
  | cons b rest => simp [readBool, readFull, GoResult.bind]

theorem readUint32_ok (r : List Byte) (h : 4 ≤ r.length) :
    readUint32 r = .ok (bigEndianUint32 (r.take 4)) := by
  have h0 : ¬ r.length = 0 := by omega
  have h1 : ¬ r.length < 4 := by omega
  simp [readUint32, readFull, GoResult.bind, h0, h1]

theorem readUint32_short (r : List Byte) (h : r.length < 4) :
    readUint32 r = .error (if r.length = 0 then .EOF else .ErrUnexpectedEOF) := by
  by_cases h0 : r.length = 0
  · simp [readUint32, readFull, GoResult.bind, h0]
  · simp [readUint32, readFull, GoResult.bind, h0, h]

theorem readUint16_ok (r : List Byte) (h : 2 ≤ r.length) :
    readUint16 r = .ok (bigEndianUint16 (r.take 2)) := by
  have h0 : ¬ r.length = 0 := by omega
  have h1 : ¬ r.length < 2 := by omega
  simp [readUint16, readFull, GoResult.bind, h0, h1]

theorem take_drop_take (data : List Byte) (lo n d : Nat) (h : lo + n ≤ d) :
    (((data.take d).drop lo).take n) = (data.drop lo).take n := by
  rw [List.drop_take, List.take_take]
  congr 1
  omega

/-- The decoder on an input whose first zero byte is at an index from 13 to 16: the
read of `codeTypeID` fails. -/
theorem DeserializeBlob_delim_13_16 (data spare : List Byte) (d : Nat)
    (hd : IndexByte data PacketNullByte = some d) (h13 : 13 ≤ d) (h17 : d < 17) :
    DeserializeBlob data spare = .error (if d = 13 then .EOF else .ErrUnexpectedEOF) := by
  have hlt := IndexByte_some_lt _ _ _ hd
  have hlen : ¬ data.length < 1 := by omega
  have hn13 : ¬ d < 13 := by omega
  unfold DeserializeBlob
  simp only [hlen, if_false, hd, hn13]
  rw [slice_ok data spare 0 d (by omega) (by omega), GoResult.bind,
    readBool_ok _ (by simp; omega), GoResult.bind,
    slice_ok data spare 1 d (by omega) (by omega), GoResult.bind,
    readUint32_ok _ (by simp; omega), GoResult.bind,
    slice_ok data spare 5 d (by omega) (by omega), GoResult.bind,
    readUint32_ok _ (by simp; omega), GoResult.bind,
    slice_ok data spare 9 d (by omega) (by omega), GoResult.bind,
    readUint32_ok _ (by simp; omega), GoResult.bind,
    slice_ok data spare 13 d (by omega) (by omega), GoResult.bind,
    readUint32_short _ (by simp; omega), GoResult.bind]
  have hl : (List.drop 13 (List.take d data)).length = d - 13 := by
    simp; omega
  simp only [hl]
  congr 1
  by_cases h : d = 13
  · simp [h]
  · have : ¬ d - 13 = 0 := by omega
    simp [h, this]

/-- The decoder on an input whose first zero byte is at index 17 or later: the five
fixed fields are read from the elements, and what remains is the two slice expressions,
bounded by the capacity and read from the backing array, and the identifier decoding. -/
theorem DeserializeBlob_delim_ge_17 (data spare : List Byte) (d : Nat)
    (hd : IndexByte data PacketNullByte = some d) (h17 : 17 ≤ d) :
    DeserializeBlob data spare =
      if data.length + spare.length < 19 then .panic
      else if toU16 (19 + lengthAt (data ++ spare)) < 19
          ∨ data.length + spare.length < toU16 (19 + lengthAt (data ++ spare)) then
        .panic
      else
        match DecodeString
            (((data ++ spare).take (toU16 (19 + lengthAt (data ++ spare)))).drop 19) with
        | none => .error .codeIDDecodeFailed
        | some decodedCodeID => .ok (headerAt data decodedCodeID, data.drop (d + 1)) := by
  have hlt := IndexByte_some_lt _ _ _ hd
  have hlen : ¬ data.length < 1 := by omega
  have hn13 : ¬ d < 13 := by omega
  have hg : (List.take d data).getD 0 0 = data.getD 0 0 := by
    cases data with
    | nil => simp at hlt
    | cons b rest =>
      cases d with
      | zero => omega
      | succ k => simp
  unfold DeserializeBlob
  simp only [hlen, if_false, hd, hn13]
  rw [slice_ok data spare 0 d (by omega) (by omega), GoResult.bind,
    readBool_ok _ (by simp; omega), GoResult.bind,
    slice_ok data spare 1 d (by omega) (by omega), GoResult.bind,
    readUint32_ok _ (by simp; omega), GoResult.bind,
    slice_ok data spare 5 d (by omega) (by omega), GoResult.bind,
    readUint32_ok _ (by simp; omega), GoResult.bind,
    slice_ok data spare 9 d (by omega) (by omega), GoResult.bind,
    readUint32_ok _ (by simp; omega), GoResult.bind,
    slice_ok data spare 13 d (by omega) (by omega), GoResult.bind,
    readUint32_ok _ (by simp; omega), GoResult.bind]
  simp only [take_drop_take data 1 4 d (by omega), take_drop_take data 5 4 d (by omega),
    take_drop_take data 9 4 d (by omega), take_drop_take data 13 4 d (by omega),
    List.drop_zero, hg]
  by_cases h19 : data.length + spare.length < 19
  · rw [slice_panic data spare 17 19 (Or.inr h19)]
    simp [GoResult.bind, h19]
  · rw [slice_cap_ok data spare 17 19 (by omega) (by omega), GoResult.bind,
      readUint16_ok _ (by simp; omega)]
    simp only [take_drop_take (data ++ spare) 17 2 19 (by omega), GoResult.bind, h19,
      if_false]
    have hL : bigEndianUint16 (List.take 2 (List.drop 17 (data ++ spare)))
        = lengthAt (data ++ spare) := rfl
    rw [hL]
    by_cases hb : toU16 (19 + lengthAt (data ++ spare)) < 19
        ∨ data.length + spare.length < toU16 (19 + lengthAt (data ++ spare))
    · rw [slice_panic data spare 19 _ hb]
      simp [hb]
    · rw [slice_cap_ok data spare 19 _ (by omega) (by omega)]
      simp only [hb, if_false]
      cases hdec : DecodeString (List.drop 19
          (List.take (toU16 (19 + lengthAt (data ++ spare))) (data ++ spare))) with
      | none => rfl
      | some c =>
        simp only [sliceFrom]
        have : d + 1 ≤ data.length := by omega
        simp [this, GoResult.bind, headerAt]

/-- The length prefix read from the backing array is read from the elements when there
are at least nineteen of them. -/
theorem lengthAt_append (data spare : List Byte) (h : 19 ≤ data.length) :
    lengthAt (data ++ spare) = lengthAt data := by
  unfold lengthAt
  rw [List.drop_append_of_le_length (by omega),
    List.take_append_of_le_length (by rw [List.length_drop]; omega)]

/-- The decoder on an input whose first zero byte is at index 17 or later, when the
length prefix and the identifier range lie inside the elements: the spare capacity
plays no part. -/
theorem DeserializeBlob_delim_ge_17_within (data spare : List Byte) (d : Nat)
    (hd : IndexByte data PacketNullByte = some d) (h17 : 17 ≤ d) (h19 : 19 ≤ data.length)
    (hlo : 19 ≤ toU16 (19 + lengthAt data)) (hhi : toU16 (19 + lengthAt data) ≤ data.length) :
    DeserializeBlob data spare =
      match DecodeString ((data.take (toU16 (19 + lengthAt data))).drop 19) with
      | none => .error .codeIDDecodeFailed
      | some decodedCodeID => .ok (headerAt data decodedCodeID, data.drop (d + 1)) := by
  rw [DeserializeBlob_delim_ge_17 data spare d hd h17, if_neg (by omega),
    lengthAt_append data spare h19, if_neg (by omega), List.take_append_of_le_length hhi]

/-- The decoder on a slice without spare capacity and with its first zero byte at index
17 or later. -/
theorem DeserializeBlob_delim_ge_17_nil (data : List Byte) (d : Nat)
    (hd : IndexByte data PacketNullByte = some d) (h17 : 17 ≤ d) :
    DeserializeBlob data [] =
      if data.length < 19 then .panic
      else if toU16 (19 + lengthAt data) < 19 ∨ data.length < toU16 (19 + lengthAt data) then
        .panic
      else
        match DecodeString ((data.take (toU16 (19 + lengthAt data))).drop 19) with
        | none => .error .codeIDDecodeFailed
        | some decodedCodeID => .ok (headerAt data decodedCodeID, data.drop (d + 1)) := by
  rw [DeserializeBlob_delim_ge_17 data [] d hd h17]
  simp only [List.append_nil, List.length_nil, Nat.add_zero]

/-- When `19+length` wraps below 19 the decoder panics, whatever the capacity. -/
theorem DeserializeBlob_wrap_panics (data spare : List Byte) (d : Nat)
    (hd : IndexByte data PacketNullByte = some d) (h17 : 17 ≤ d) (h19 : 19 ≤ data.length)
    (hw : toU16 (19 + lengthAt data) < 19) : DeserializeBlob data spare = .panic := by
  rw [DeserializeBlob_delim_ge_17 data spare d hd h17, if_neg (by omega),
    lengthAt_append data spare h19, if_pos (Or.inl hw)]

/-- What the decoder returns on a slice without spare capacity, when that is not a
panic, it returns on the same elements with any spare capacity. -/
theorem DeserializeBlob_spare (data spare : List Byte)
    (hnp : DeserializeBlob data [] ≠ .panic) :
    DeserializeBlob data spare = DeserializeBlob data [] := by
  by_cases h0 : data.length < 1
  · simp [DeserializeBlob, h0]
  · cases hd : IndexByte data PacketNullByte with
    | none => simp [DeserializeBlob, h0, hd]
    | some d =>
      by_cases h13 : d < 13
      · simp [DeserializeBlob, h0, hd, h13]
      · by_cases h17 : d < 17
        · rw [DeserializeBlob_delim_13_16 data spare d hd (by omega) h17,
            DeserializeBlob_delim_13_16 data [] d hd (by omega) h17]
        · rw [DeserializeBlob_delim_ge_17_nil data d hd (by omega)] at hnp
          by_cases h19 : data.length < 19
          · rw [if_pos h19] at hnp
            exact absurd rfl hnp
          · rw [if_neg h19] at hnp
            by_cases hb : toU16 (19 + lengthAt data) < 19
                ∨ data.length < toU16 (19 + lengthAt data)
            · rw [if_pos hb] at hnp
              exact absurd rfl hnp
            · rw [DeserializeBlob_delim_ge_17_within data spare d hd (by omega) (by omega)
                (by omega) (by omega),
                DeserializeBlob_delim_ge_17_within data [] d hd (by omega) (by omega)
                (by omega) (by omega)]

/-! ## Lemmas on big-endian integers -/

theorem or_shiftLeft_eq_add (a b i : Nat) (h : a < 2 ^ i) :
    a ||| b <<< i = a + b * 2 ^ i := by
  rw [Nat.shiftLeft_eq, Nat.lor_comm, Nat.mul_comm, ← Nat.mul_add_lt_is_or h]
  omega

theorem bigEndianUint32_val (b : List Byte) : (bigEndianUint32 b).val = be32Value b := by
  have h0 := (b.getD 0 0).isLt
  have h1 := (b.getD 1 0).isLt
  have h2 := (b.getD 2 0).isLt
  have h3 := (b.getD 3 0).isLt
  unfold bigEndianUint32 be32Value toU32
  simp only
  rw [or_shiftLeft_eq_add _ _ 8 (by omega), or_shiftLeft_eq_add _ _ 16 (by omega),
    or_shiftLeft_eq_add _ _ 24 (by omega)]
  omega

theorem bigEndianUint16_eq (b : List Byte) : bigEndianUint16 b = be16Value b := by
  have h0 := (b.getD 0 0).isLt
  have h1 := (b.getD 1 0).isLt
  unfold bigEndianUint16 be16Value toU16
  rw [or_shiftLeft_eq_add _ _ 8 (by omega)]
  omega

theorem bigEndianUint32_putUint32 (v : U32) : bigEndianUint32 (putUint32 v) = v := by
  apply Fin.ext
  have hv := v.isLt
  rw [bigEndianUint32_val]
  simp only [be32Value, putUint32, toByte, List.getD_cons_zero, List.getD_cons_succ,
    Nat.shiftRight_eq_div_pow]
  omega

theorem bigEndianUint16_putUint16 (v : Nat) (hv : v < 65536) :
    bigEndianUint16 (putUint16 v) = v := by
  rw [bigEndianUint16_eq]
  simp only [be16Value, putUint16, toByte, List.getD_cons_zero, List.getD_cons_succ,
    Nat.shiftRight_eq_div_pow]
  omega

/-! ## The decoder on an input laid out as the encoder writes it -/

/-- The decoder on nineteen non-zero bytes, then a zero-free `E`, then a zero byte and
`p`: the first zero byte is the one after `E`, the fixed fields are read from the
nineteen bytes, and the identifier is cut out of the backing array with the length
the two bytes `l1 l2` give. -/
theorem DeserializeBlob_layout (f a1 a2 a3 a4 b1 b2 b3 b4 c1 c2 c3 c4 d1 d2 d3 d4 l1 l2 : Byte)
    (E p spare : List Byte)
    (hfix : ∀ b ∈ [f, a1, a2, a3, a4, b1, b2, b3, b4, c1, c2, c3, c4, d1, d2, d3, d4, l1, l2],
      b ≠ 0)
    (hE : ∀ b ∈ E, b ≠ 0) :
    DeserializeBlob (f :: a1 :: a2 :: a3 :: a4 :: b1 :: b2 :: b3 :: b4 :: c1 :: c2 :: c3 ::
        c4 :: d1 :: d2 :: d3 :: d4 :: l1 :: l2 :: (E ++ 0 :: p)) spare =
      if toU16 (19 + bigEndianUint16 [l1, l2]) < 19
          ∨ 20 + E.length + p.length + spare.length
            < toU16 (19 + bigEndianUint16 [l1, l2]) then .panic
      else
        match DecodeString
            ((E ++ 0 :: (p ++ spare)).take (toU16 (19 + bigEndianUint16 [l1, l2]) - 19)) with
        | none => .error .codeIDDecodeFailed
        | some decodedCodeID =>
          .ok (⟨true, bigEndianUint32 [a1, a2, a3, a4], bigEndianUint32 [b1, b2, b3, b4],
            bigEndianUint32 [c1, c2, c3, c4], bigEndianUint32 [d1, d2, d3, d4],
            decodedCodeID⟩, p) := by
  have hd : IndexByte (f :: a1 :: a2 :: a3 :: a4 :: b1 :: b2 :: b3 :: b4 :: c1 :: c2 :: c3 ::
      c4 :: d1 :: d2 :: d3 :: d4 :: l1 :: l2 :: (E ++ 0 :: p)) PacketNullByte
      = some (19 + E.length) := by
    have := IndexByte_append PacketNullByte p
      ([f, a1, a2, a3, a4, b1, b2, b3, b4, c1, c2, c3, c4, d1, d2, d3, d4, l1, l2] ++ E)
      (by
        intro b hb
        rcases List.mem_append.1 hb with hb | hb
        · exact hfix b hb
        · exact hE b hb)
    simp only [List.cons_append, List.nil_append, List.append_assoc, List.length_cons,
      List.length_append, List.length_nil] at this
    rw [show PacketNullByte = (0 : Byte) from rfl] at this
    rw [show PacketNullByte = (0 : Byte) from rfl, this]
    congr 1
    omega
  have hf : f ≠ 0 := hfix f (by simp)
  rw [DeserializeBlob_delim_ge_17 _ spare _ hd (by omega)]
  have hlen2 : (f :: a1 :: a2 :: a3 :: a4 :: b1 :: b2 :: b3 :: b4 :: c1 :: c2 :: c3 ::
      c4 :: d1 :: d2 :: d3 :: d4 :: l1 :: l2 :: (E ++ 0 :: p)).length
      = 20 + E.length + p.length := by
    simp only [List.length_cons, List.length_append]
    omega
  rw [lengthAt_append _ spare (by omega), hlen2, if_neg (by omega)]
  have hL : lengthAt (f :: a1 :: a2 :: a3 :: a4 :: b1 :: b2 :: b3 :: b4 :: c1 :: c2 :: c3 ::
      c4 :: d1 :: d2 :: d3 :: d4 :: l1 :: l2 :: (E ++ 0 :: p)) = bigEndianUint16 [l1, l2] := by
    simp [lengthAt]
  rw [hL]
  by_cases hb : toU16 (19 + bigEndianUint16 [l1, l2]) < 19
      ∨ 20 + E.length + p.length + spare.length < toU16 (19 + bigEndianUint16 [l1, l2])
  · rw [if_pos hb, if_pos hb]
  · rw [if_neg hb, if_neg hb]
    obtain ⟨k, hk⟩ : ∃ k, toU16 (19 + bigEndianUint16 [l1, l2]) = 19 + k :=
      ⟨toU16 (19 + bigEndianUint16 [l1, l2]) - 19, by omega⟩
    have hslice : List.drop 19 (List.take (toU16 (19 + bigEndianUint16 [l1, l2]))
        ((f :: a1 :: a2 :: a3 :: a4 :: b1 :: b2 :: b3 :: b4 :: c1 :: c2 :: c3 ::
          c4 :: d1 :: d2 :: d3 :: d4 :: l1 :: l2 :: (E ++ 0 :: p)) ++ spare))
        = (E ++ 0 :: (p ++ spare)).take (toU16 (19 + bigEndianUint16 [l1, l2]) - 19) := by
      rw [hk, List.drop_take]
      simp
    rw [hslice]
    have hrest : List.drop (19 + E.length + 1)
        (f :: a1 :: a2 :: a3 :: a4 :: b1 :: b2 :: b3 :: b4 :: c1 :: c2 :: c3 ::
          c4 :: d1 :: d2 :: d3 :: d4 :: l1 :: l2 :: (E ++ 0 :: p)) = p := by
      have : 19 + E.length + 1 = (E.length + 1) + 19 := by omega
      rw [this]
      simp only [List.drop_succ_cons]
      rw [List.drop_append_eq_append_drop]
      simp
    rw [hrest]
    cases DecodeString
        ((E ++ 0 :: (p ++ spare)).take (toU16 (19 + bigEndianUint16 [l1, l2]) - 19)) with
    | none => rfl
    | some c => simp [headerAt, hf]

/-! ## Lemmas on the encoder -/

/-- The encoder on a header that is present, as one concatenation. -/
theorem SerializeBlob_some (h : ObjectHeader) (p : List Byte) :
    SerializeBlob (some h) p =
      .ok (writeBool h.isNativeLanguage ++ (putUint32 h.languageID ++
        (putUint32 h.languageVersionID ++ (putUint32 h.languageTypeID ++
        (putUint32 h.codeTypeID ++ (putUint16 (toU16 (EncodeToString h.codeID).length) ++
        (EncodeToString h.codeID ++ PacketNullByte :: p))))))) := by
  simp [SerializeBlob]

/-! ## Lemmas on decoding the encoder's output -/

theorem roundTrip_eq (h : ObjectHeader) (p spare bs : List Byte)
    (hs : SerializeBlob (some h) p = .ok bs) :
    roundTrip h p spare = DeserializeBlob bs spare := by
  unfold roundTrip
  rw [hs]
  rfl

/-- What decoding the encoder's output returns without spare capacity, when that is not
a panic, it returns with any spare capacity. -/
theorem roundTrip_spare (h : ObjectHeader) (p spare : List Byte)
    (hnp : roundTrip h p [] ≠ .panic) : roundTrip h p spare = roundTrip h p [] := by
  rw [roundTrip_eq h p [] _ (SerializeBlob_some h p)] at hnp
  rw [roundTrip_eq h p spare _ (SerializeBlob_some h p),
    roundTrip_eq h p [] _ (SerializeBlob_some h p)]
  exact DeserializeBlob_spare _ spare hnp

/-! ## Theorems -/

/-- C1, at the scenario the specification gives: the header
`{true, 1, 2, 3, 4, "abc"}` with payload `[0xAA, 0xBB]` is encoded to 26 bytes, and
decoding those 26 bytes, whatever the spare capacity of the slice, does not give the
header and payload back: the first zero byte is at index 1, and the decoder returns the
error "data is too short to contain a complete ObjectHeader". -/
theorem roundTrip_spec_scenario_fails :
    SerializeBlob (some ⟨true, 1, 2, 3, 4, [97, 98, 99]⟩) [0xAA, 0xBB] =
        .ok [1, 0, 0, 0, 1, 0, 0, 0, 2, 0, 0, 0, 3, 0, 0, 0, 4, 0, 4, 89, 87, 74, 106, 0,
          0xAA, 0xBB] ∧
      IndexByte [1, 0, 0, 0, 1, 0, 0, 0, 2, 0, 0, 0, 3, 0, 0, 0, 4, 0, 4, 89, 87, 74, 106, 0,
          0xAA, 0xBB] PacketNullByte = some 1 ∧
      (∀ spare : List Byte,
        DeserializeBlob [1, 0, 0, 0, 1, 0, 0, 0, 2, 0, 0, 0, 3, 0, 0, 0, 4, 0, 4, 89, 87, 74,
          106, 0, 0xAA, 0xBB] spare = .error .headerTooShort) ∧
      (∀ spare : List Byte,
        roundTrip ⟨true, 1, 2, 3, 4, [97, 98, 99]⟩ [0xAA, 0xBB] spare
          = .error .headerTooShort) ∧
      ∀ spare : List Byte,
        roundTrip ⟨true, 1, 2, 3, 4, [97, 98, 99]⟩ [0xAA, 0xBB] spare ≠
          .ok (⟨true, 1, 2, 3, 4, [97, 98, 99]⟩, [0xAA, 0xBB]) := by
  have hs : SerializeBlob (some ⟨true, 1, 2, 3, 4, [97, 98, 99]⟩) [0xAA, 0xBB] =
      .ok [1, 0, 0, 0, 1, 0, 0, 0, 2, 0, 0, 0, 3, 0, 0, 0, 4, 0, 4, 89, 87, 74, 106, 0,
        0xAA, 0xBB] := by decide
  have hnil : DeserializeBlob [1, 0, 0, 0, 1, 0, 0, 0, 2, 0, 0, 0, 3, 0, 0, 0, 4, 0, 4, 89, 87,
      74, 106, 0, 0xAA, 0xBB] [] = .error .headerTooShort := by decide
  have hall : ∀ spare : List Byte,
      DeserializeBlob [1, 0, 0, 0, 1, 0, 0, 0, 2, 0, 0, 0, 3, 0, 0, 0, 4, 0, 4, 89, 87, 74,
        106, 0, 0xAA, 0xBB] spare = .error .headerTooShort := by
    intro spare
    rw [DeserializeBlob_spare _ spare (by rw [hnil]; decide), hnil]
  refine ⟨hs, by decide, hall, ?_, ?_⟩
  · intro spare
    rw [roundTrip_eq _ _ spare _ hs, hall spare]
  · intro spare
    rw [roundTrip_eq _ _ spare _ hs, hall spare]
    decide

/-- C2: for a header that is present and whose identifier has a padded base64 form
`E` of at most 65535 bytes, the encoder returns exactly the flag byte, the four
integers in big-endian form, the big-endian length of `E`, `E`, one zero byte and the
payload, in this order and with nothing else. -/
theorem SerializeBlob_wire_layout (h : ObjectHeader) (p : List Byte)
    (hlen : (EncodeToString h.codeID).length ≤ 65535) :
    SerializeBlob (some h) p =
      .ok ([if h.isNativeLanguage then 1 else 0] ++ be32 h.languageID.val ++
        be32 h.languageVersionID.val ++ be32 h.languageTypeID.val ++ be32 h.codeTypeID.val ++
        be16 (EncodeToString h.codeID).length ++ EncodeToString h.codeID ++ [0x00] ++ p) := by
  have hU : toU16 (EncodeToString h.codeID).length = (EncodeToString h.codeID).length := by
    unfold toU16
    omega
  rw [SerializeBlob_some, hU]
  simp [writeBool, putUint32_eq_be32, putUint16_eq_be16, PacketNullByte]

/-- C2 at the header `{true, 1, 2, 3, 4, "abc"}` and payload `[0xAA, 0xBB]`: the 26
bytes `01 00000001 00000002 00000003 00000004 0004 'YWJj' 00 AA BB`. -/
theorem SerializeBlob_wire_layout_witness :
    (EncodeToString (ObjectHeader.mk true 1 2 3 4 [97, 98, 99]).codeID).length ≤ 65535 ∧
      SerializeBlob (some ⟨true, 1, 2, 3, 4, [97, 98, 99]⟩) [0xAA, 0xBB] =
        .ok [0x01, 0, 0, 0, 1, 0, 0, 0, 2, 0, 0, 0, 3, 0, 0, 0, 4, 0x00, 0x04,
          89, 87, 74, 106, 0x00, 0xAA, 0xBB] :=
  ⟨by decide,
    (SerializeBlob_wire_layout ⟨true, 1, 2, 3, 4, [97, 98, 99]⟩ [0xAA, 0xBB] (by decide)).trans
      (by decide)⟩

/-- C3: the encoder fails exactly when the header is nil: for a nil header it returns
the error "header is nil" and no bytes, and for every header that is present and every
payload it returns bytes and no error. -/
theorem SerializeBlob_fails_iff_nil (header : Option ObjectHeader) (p : List Byte) :
    SerializeBlob none p = .error .headerNil ∧
      ((SerializeBlob header p).isError = true ↔ header = none) ∧
      ((∃ bs, SerializeBlob header p = .ok bs) ↔ header ≠ none) := by
  refine ⟨rfl, ?_, ?_⟩
  · cases header with
    | none => simp [SerializeBlob, GoResult.isError]
    | some h => simp [SerializeBlob_some, GoResult.isError]
  · cases header with
    | none => simp [SerializeBlob]
    | some h => simp [SerializeBlob_some]

/-- The encoder on an identifier of 49152 bytes: the encoded form has 65536 bytes, the
call succeeds, and the two length bytes are both zero. -/
theorem SerializeBlob_codeID_49152 (h : ObjectHeader) (p : List Byte)
    (hl : h.codeID.length = 49152) :
    (EncodeToString h.codeID).length = 65536 ∧
      ∃ bs, SerializeBlob (some h) p = .ok bs ∧ (bs.drop 17).take 2 = [0, 0] ∧
        bs.length = 17 + 2 + 65536 + 1 + p.length := by
  have hE : (EncodeToString h.codeID).length = 65536 := by
    rw [EncodeToString_length, hl]
  refine ⟨hE, _, SerializeBlob_some h p, ?_, ?_⟩
  · rw [hE]
    simp [writeBool, putUint32, putUint16, toU16, toByte]
  · simp [writeBool, putUint32, putUint16, hE]
    omega

/-- C4, at an identifier of 49152 bytes (each the letter `a`), whose padded base64
form has exactly 65536 bytes: the encoder does not fail. It returns 65556 bytes for an
empty payload, and the two-byte length field at offsets 17 and 18 is `00 00`, not the
encoded length. -/
theorem SerializeBlob_oversized_not_reported :
    (EncodeToString (List.replicate 49152 97)).length = 65536 ∧
      ∃ bs, SerializeBlob (some ⟨true, 1, 2, 3, 4, List.replicate 49152 97⟩) [] = .ok bs ∧
        (bs.drop 17).take 2 = [0, 0] ∧ bs.length = 17 + 2 + 65536 + 1 + ([] : List Byte).length :=
  SerializeBlob_codeID_49152 ⟨true, 1, 2, 3, 4, List.replicate 49152 97⟩ []
    (List.length_replicate 49152 97)

/-- C5, at three inputs whose first zero byte is at index 17 or later: the decoder
neither returns a header nor an error, it panics on a slice expression. On 17 bytes
`01` and one `00`, in a slice whose capacity is its length, the expression `data[17:19]`
is out of range; on 17 bytes `01` then `01 01 00`, in a slice whose capacity is its
length, the length prefix is 257 and `data[19:276]` is out of range; on 17 bytes `01`
then `FF FF 00` the sum `19+length` wraps to 18 and `data[19:18]` is out of range
whatever the capacity. -/
theorem DeserializeBlob_panics :
    DeserializeBlob [1, 1, 1, 1, 1, 1, 1, 1, 1, 1, 1, 1, 1, 1, 1, 1, 1, 0] [] = .panic ∧
      DeserializeBlob [1, 1, 1, 1, 1, 1, 1, 1, 1, 1, 1, 1, 1, 1, 1, 1, 1, 1, 1, 0] []
        = .panic ∧
      ∀ spare : List Byte,
        DeserializeBlob [1, 1, 1, 1, 1, 1, 1, 1, 1, 1, 1, 1, 1, 1, 1, 1, 1, 255, 255, 0] spare
          = .panic :=
  ⟨by decide, by decide, fun spare =>
    DeserializeBlob_wrap_panics
      [1, 1, 1, 1, 1, 1, 1, 1, 1, 1, 1, 1, 1, 1, 1, 1, 1, 255, 255, 0] spare 19
      (by decide) (by decide) (by decide) (by decide)⟩

/-- C6: on every input shorter than the 17-byte fixed header region, whatever its spare
capacity, the decoder returns an error, and so no header and no payload; it does not
panic. -/
theorem DeserializeBlob_short_input (data spare : List Byte) (hshort : data.length < 17) :
    ∃ e, DeserializeBlob data spare = .error e := by
  by_cases h0 : data.length < 1
  · exact ⟨.dataTooShort, by simp [DeserializeBlob, h0]⟩
  · cases hd : IndexByte data PacketNullByte with
    | none => exact ⟨.delimiterNotFound, by simp [DeserializeBlob, h0, hd]⟩
    | some d =>
      have hlt := IndexByte_some_lt _ _ _ hd
      by_cases h13 : d < 13
      · exact ⟨.headerTooShort, by simp [DeserializeBlob, h0, hd, h13]⟩
      · exact ⟨_, DeserializeBlob_delim_13_16 data spare d hd (by omega) (by omega)⟩

/-- C6 at the three-byte input `01 02 03`, with any spare capacity. -/
theorem DeserializeBlob_short_input_witness :
    ([1, 2, 3] : List Byte).length < 17 ∧
      ∀ spare : List Byte, ∃ e, DeserializeBlob [1, 2, 3] spare = .error e :=
  ⟨by decide, fun spare => DeserializeBlob_short_input [1, 2, 3] spare (by decide)⟩

/-- C7: the decoder returns the error "data is too short to contain an ObjectHeader"
on the empty input, the error "null packet delimiter not found" on a non-empty input
without a zero byte, and the error "data is too short to contain a complete
ObjectHeader" on an input whose first zero byte is at an index below 13; the three
errors are pairwise different, in value and in text, and an error carries no header
and no payload. The spare capacity of the input plays no part. -/
theorem DeserializeBlob_rejections :
    (∀ spare : List Byte, DeserializeBlob [] spare = .error .dataTooShort) ∧
      (∀ data spare : List Byte, data ≠ [] → (∀ b ∈ data, b ≠ 0) →
        DeserializeBlob data spare = .error .delimiterNotFound) ∧
      (∀ pre post spare : List Byte, (∀ b ∈ pre, b ≠ 0) → pre.length < 13 →
        DeserializeBlob (pre ++ 0 :: post) spare = .error .headerTooShort) ∧
      BlobError.dataTooShort ≠ BlobError.delimiterNotFound ∧
      BlobError.dataTooShort ≠ BlobError.headerTooShort ∧
      BlobError.delimiterNotFound ≠ BlobError.headerTooShort ∧
      BlobError.dataTooShort.message ≠ BlobError.delimiterNotFound.message ∧
      BlobError.dataTooShort.message ≠ BlobError.headerTooShort.message ∧
      BlobError.delimiterNotFound.message ≠ BlobError.headerTooShort.message := by
  refine ⟨fun spare => by simp [DeserializeBlob], ?_, ?_, by decide, by decide, by decide,
    by decide, by decide, by decide⟩
  · intro data spare hne hnz
    have h0 : ¬ data.length < 1 := by
      cases data with
      | nil => exact absurd rfl hne
      | cons b rest => simp
    simp [DeserializeBlob, h0, IndexByte_none PacketNullByte data hnz]
  · intro pre post spare hnz hlen
    have hd : IndexByte (pre ++ 0 :: post) PacketNullByte = some pre.length :=
      IndexByte_append PacketNullByte post pre hnz
    have h0 : ¬ (pre ++ 0 :: post).length < 1 := by simp
    unfold DeserializeBlob
    simp only [h0, if_false, hd, hlen, if_true]

/-- C7 at concrete inputs: the empty input, the input `01 02`, and the input
`01 02 00 03` with its first zero byte at index 2. -/
theorem DeserializeBlob_rejections_witness :
    DeserializeBlob [] [] = .error .dataTooShort ∧
      DeserializeBlob [1, 2] [] = .error .delimiterNotFound ∧
      DeserializeBlob ([1, 2] ++ 0 :: [3]) [] = .error .headerTooShort :=
  ⟨DeserializeBlob_rejections.1 [],
    DeserializeBlob_rejections.2.1 [1, 2] [] (by simp) (by simp),
    DeserializeBlob_rejections.2.2.1 [1, 2] [3] [] (by simp) (by simp)⟩

/-- Decoding the encoder's output for a header whose flag is set and whose seventeen
fixed bytes and two length bytes are all non-zero: the scan stops at the delimiter the
encoder wrote, and the outcome is decided by the slice `data[19:19+length]`. -/
theorem roundTrip_of_nonzero_head (h : ObjectHeader) (p spare : List Byte)
    (hflag : h.isNativeLanguage = true)
    (h1 : ∀ b ∈ putUint32 h.languageID, b ≠ 0)
    (h2 : ∀ b ∈ putUint32 h.languageVersionID, b ≠ 0)
    (h3 : ∀ b ∈ putUint32 h.languageTypeID, b ≠ 0)
    (h4 : ∀ b ∈ putUint32 h.codeTypeID, b ≠ 0)
    (hl : ∀ b ∈ putUint16 (toU16 (EncodeToString h.codeID).length), b ≠ 0) :
    roundTrip h p spare =
      if toU16 (19 + toU16 (EncodeToString h.codeID).length) < 19
          ∨ 20 + (EncodeToString h.codeID).length + p.length + spare.length
            < toU16 (19 + toU16 (EncodeToString h.codeID).length) then .panic
      else
        match DecodeString ((EncodeToString h.codeID ++ 0 :: (p ++ spare)).take
            (toU16 (19 + toU16 (EncodeToString h.codeID).length) - 19)) with
        | none => .error .codeIDDecodeFailed
        | some decodedCodeID => .ok ({ h with codeID := decodedCodeID }, p) := by
  have hlen16 : bigEndianUint16 (putUint16 (toU16 (EncodeToString h.codeID).length))
      = toU16 (EncodeToString h.codeID).length :=
    bigEndianUint16_putUint16 _ (by unfold toU16; omega)
  have e1 := bigEndianUint32_putUint32 h.languageID
  have e2 := bigEndianUint32_putUint32 h.languageVersionID
  have e3 := bigEndianUint32_putUint32 h.languageTypeID
  have e4 := bigEndianUint32_putUint32 h.codeTypeID
  have hfix : ∀ b ∈ writeBool true ++ (putUint32 h.languageID ++
      (putUint32 h.languageVersionID ++ (putUint32 h.languageTypeID ++
      (putUint32 h.codeTypeID ++ putUint16 (toU16 (EncodeToString h.codeID).length))))),
      b ≠ 0 := by
    intro b hb
    rcases List.mem_append.1 hb with hb | hb
    · simp only [writeBool, if_true, List.mem_singleton] at hb
      subst hb
      decide
    · rcases List.mem_append.1 hb with hb | hb
      · exact h1 b hb
      · rcases List.mem_append.1 hb with hb | hb
        · exact h2 b hb
        · rcases List.mem_append.1 hb with hb | hb
          · exact h3 b hb
          · rcases List.mem_append.1 hb with hb | hb
            · exact h4 b hb
            · exact hl b hb
  rw [roundTrip_eq h p spare _ (SerializeBlob_some h p)]
  simp only [putUint32, putUint16, writeBool, hflag, if_true, List.cons_append,
    List.nil_append, PacketNullByte] at hfix hlen16 e1 e2 e3 e4 ⊢
  rw [DeserializeBlob_layout _ _ _ _ _ _ _ _ _ _ _ _ _ _ _ _ _ _ _ _ _ spare hfix
    (EncodeToString_ne_zero h.codeID)]
  rw [hlen16, e1, e2, e3, e4]

/-- Decoding the encoder's output when the encoded identifier has between 65517 and
65535 bytes: the sum `19+length` wraps below 19 and the slice expression panics,
whatever the capacity. -/
theorem roundTrip_panics_at_top (h : ObjectHeader) (p spare : List Byte)
    (hflag : h.isNativeLanguage = true)
    (h1 : ∀ b ∈ putUint32 h.languageID, b ≠ 0)
    (h2 : ∀ b ∈ putUint32 h.languageVersionID, b ≠ 0)
    (h3 : ∀ b ∈ putUint32 h.languageTypeID, b ≠ 0)
    (h4 : ∀ b ∈ putUint32 h.codeTypeID, b ≠ 0)
    (hlo : 65517 ≤ (EncodeToString h.codeID).length)
    (hhi : (EncodeToString h.codeID).length ≤ 65535) :
    roundTrip h p spare = .panic := by
  have hl : ∀ b ∈ putUint16 (toU16 (EncodeToString h.codeID).length), b ≠ 0 := by
    intro b hb
    simp only [putUint16, toU16, toByte, List.mem_cons, List.mem_singleton, List.not_mem_nil,
      or_false, Nat.shiftRight_eq_div_pow] at hb
    rcases hb with rfl | rfl
    · intro hz
      have := congrArg Fin.val hz
      simp only [Fin.val_zero] at this
      omega
    · intro hz
      have := congrArg Fin.val hz
      simp only [Fin.val_zero] at this
      omega
  rw [roundTrip_of_nonzero_head h p spare hflag h1 h2 h3 h4 hl]
  have : toU16 (19 + toU16 (EncodeToString h.codeID).length) < 19 := by
    unfold toU16
    omega
  rw [if_pos (Or.inl this)]

theorem putUint32_16843009_ne_zero : ∀ b ∈ putUint32 16843009, b ≠ 0 := by
  intro b hb
  simp only [putUint32, List.mem_cons, List.mem_singleton, List.not_mem_nil, or_false] at hb
  rcases hb with rfl | rfl | rfl | rfl <;> decide

theorem EncodeToString_replicate_49149 :
    (EncodeToString (List.replicate 49149 97)).length = 65532 := by
  rw [EncodeToString_length, List.length_replicate]

/-- C8, at the header `{true, 0x01010101, 0x01010101, 0x01010101, 0x01010101, code_id}`
with a `code_id` of 49149 bytes (each the letter `a`) and payload `[0xAA, 0xBB]`: the
padded base64 form has 65532 bytes, the largest length a padded form below 65536 can
have; the encoder succeeds; decoding its output, whatever its spare capacity, does not
return the header and the payload but panics, because `19+length` is computed in 16
bits and wraps to 15. -/
theorem roundTrip_length_boundary_panics :
    (EncodeToString (List.replicate 49149 97)).length = 65532 ∧
      toU16 (19 + 65532) = 15 ∧
      (∃ bs, SerializeBlob (some ⟨true, 16843009, 16843009, 16843009, 16843009,
        List.replicate 49149 97⟩) [0xAA, 0xBB] = .ok bs) ∧
      ∀ spare : List Byte,
        roundTrip ⟨true, 16843009, 16843009, 16843009, 16843009, List.replicate 49149 97⟩
          [0xAA, 0xBB] spare = .panic :=
  ⟨EncodeToString_replicate_49149, by decide, ⟨_, SerializeBlob_some _ _⟩, fun spare =>
    roundTrip_panics_at_top
      ⟨true, 16843009, 16843009, 16843009, 16843009, List.replicate 49149 97⟩ [0xAA, 0xBB]
      spare rfl
      putUint32_16843009_ne_zero putUint32_16843009_ne_zero putUint32_16843009_ne_zero
      putUint32_16843009_ne_zero
      (le_of_le_of_eq (by decide) EncodeToString_replicate_49149.symm)
      (le_of_eq_of_le EncodeToString_replicate_49149 (by decide))⟩

/-- The nineteen bytes the encoder writes before the encoded identifier. -/
theorem SerializeBlob_head (h : ObjectHeader) (p : List Byte) :
    ∃ pre : List Byte, pre.length = 19 ∧
      SerializeBlob (some h) p = .ok (pre ++ (EncodeToString h.codeID ++ 0 :: p)) := by
  refine ⟨writeBool h.isNativeLanguage ++ (putUint32 h.languageID ++
    (putUint32 h.languageVersionID ++ (putUint32 h.languageTypeID ++
    (putUint32 h.codeTypeID ++ putUint16 (toU16 (EncodeToString h.codeID).length))))), ?_, ?_⟩
  · simp [writeBool, putUint32, putUint16]
  · rw [SerializeBlob_some]
    simp [PacketNullByte]

/-- C9: in the encoder's output for a header that is present, with `E` the padded
base64 form of the identifier, every byte at an offset from 19 up to but not including
`19 + len(E)` is non-zero, the byte at offset `19 + len(E)` is zero, and the output has
`20 + len(E) + len(p)` bytes; with an empty payload it has exactly `20 + len(E)` bytes
and its last byte is the delimiter. -/
theorem SerializeBlob_delimiter_placement (h : ObjectHeader) (p : List Byte) :
    ∃ bs, SerializeBlob (some h) p = .ok bs ∧
      (∀ i, 19 ≤ i → i < 19 + (EncodeToString h.codeID).length →
        ∃ b, bs[i]? = some b ∧ b ≠ 0) ∧
      bs[19 + (EncodeToString h.codeID).length]? = some 0 ∧
      bs.length = 20 + (EncodeToString h.codeID).length + p.length ∧
      (p = [] → bs.length = 20 + (EncodeToString h.codeID).length ∧ bs.getLast? = some 0) := by
  obtain ⟨pre, hpre, hs⟩ := SerializeBlob_head h p
  refine ⟨_, hs, ?_, ?_, ?_, ?_⟩
  · intro i h19 hi
    have hj : i - 19 < (EncodeToString h.codeID).length := by omega
    refine ⟨(EncodeToString h.codeID)[i - 19], ?_, ?_⟩
    · rw [List.getElem?_append_right (by omega), hpre, List.getElem?_append_left hj,
        List.getElem?_eq_getElem hj]
    · exact EncodeToString_ne_zero _ _ (List.getElem_mem _)
  · rw [List.getElem?_append_right (by omega), hpre,
      List.getElem?_append_right (by omega)]
    simp
  · simp only [List.length_append, List.length_cons, hpre]
    omega
  · intro hp
    subst hp
    refine ⟨?_, ?_⟩
    · simp only [List.length_append, List.length_cons, List.length_nil, hpre]
      omega
    · rw [← List.append_assoc, List.getLast?_append]
      simp

/-! ## Lemmas on a successful decode -/

/-- The index `bytes.IndexByte` returns splits the input: before it no byte is `c`, at
it the byte is `c`. -/
theorem IndexByte_some_split (c : Byte) :
    ∀ (data : List Byte) (d : Nat), IndexByte data c = some d →
      data = data.take d ++ c :: data.drop (d + 1) ∧ (∀ b ∈ data.take d, b ≠ c) ∧
        (data.take d).length = d := by
  intro data
  induction data with
  | nil => intro d h; simp [IndexByte] at h
  | cons b rest ih =>
    intro d h
    simp only [IndexByte] at h
    split at h
    · rename_i hbc
      simp only [Option.some.injEq] at h
      subst h
      subst hbc
      simp
    · rename_i hbc
      cases hr : IndexByte rest c with
      | none => simp [hr] at h
      | some k =>
        simp only [hr, Option.map_some', Option.some.injEq] at h
        subst h
        obtain ⟨h1, h2, h3⟩ := ih k hr
        refine ⟨?_, ?_, ?_⟩
        · simp only [List.take_succ_cons, List.drop_succ_cons, List.cons_append]
          rw [← h1]
        · intro x hx
          simp only [List.take_succ_cons, List.mem_cons] at hx
          rcases hx with rfl | hx
          · exact hbc
          · exact h2 x hx
        · simp only [List.take_succ_cons, List.length_cons, h3]

/-- What a successful decode implies: the first zero byte is at an index `d >= 17`, the
identifier range lies inside the capacity, the identifier bytes of the backing array
decode, the header is the one read at the fixed offsets, and the payload is the input
after index `d`. -/
theorem DeserializeBlob_ok_inv (data spare : List Byte) (h : ObjectHeader) (rest : List Byte)
    (hok : DeserializeBlob data spare = .ok (h, rest)) :
    ∃ d, IndexByte data PacketNullByte = some d ∧ 17 ≤ d ∧
      19 + lengthAt (data ++ spare) ≤ data.length + spare.length ∧
      DecodeString (((data ++ spare).drop 19).take (lengthAt (data ++ spare)))
        = some h.codeID ∧
      h = headerAt data h.codeID ∧ rest = data.drop (d + 1) := by
  by_cases h0 : data.length < 1
  · simp [DeserializeBlob, h0] at hok
  · cases hd : IndexByte data PacketNullByte with
    | none => simp [DeserializeBlob, h0, hd] at hok
    | some d =>
      by_cases h13 : d < 13
      · simp [DeserializeBlob, h0, hd, h13] at hok
      · by_cases h17 : d < 17
        · rw [DeserializeBlob_delim_13_16 data spare d hd (by omega) h17] at hok
          cases hok
        · rw [DeserializeBlob_delim_ge_17 data spare d hd (by omega)] at hok
          by_cases h19 : data.length + spare.length < 19
          · rw [if_pos h19] at hok
            cases hok
          · rw [if_neg h19] at hok
            by_cases hb : toU16 (19 + lengthAt (data ++ spare)) < 19
                ∨ data.length + spare.length < toU16 (19 + lengthAt (data ++ spare))
            · rw [if_pos hb] at hok
              cases hok
            · rw [if_neg hb] at hok
              have hLlt : lengthAt (data ++ spare) < 65536 := by
                unfold lengthAt bigEndianUint16 toU16
                omega
              have hno : toU16 (19 + lengthAt (data ++ spare))
                  = 19 + lengthAt (data ++ spare) := by
                unfold toU16 at hb ⊢
                omega
              rw [hno] at hb hok
              rw [List.drop_take] at hok
              simp only [Nat.add_sub_cancel_left] at hok
              cases hdec : DecodeString
                  (List.take (lengthAt (data ++ spare)) (List.drop 19 (data ++ spare))) with
              | none =>
                rw [hdec] at hok
                cases hok
              | some c =>
                rw [hdec] at hok
                simp only [GoResult.ok.injEq, Prod.mk.injEq] at hok
                obtain ⟨hh, hr⟩ := hok
                subst hh
                exact ⟨d, rfl, by omega, by omega, rfl, rfl, hr.symm⟩

/-- What the decoder parses on success: the flag and the four integers come from the
first seventeen elements; the length prefix `L` and the identifier come from offsets 17
and 19 of the backing array, with `19 + L` inside the capacity. -/
theorem DeserializeBlob_field_parsing (data spare : List Byte) (h : ObjectHeader)
    (rest : List Byte) (hok : DeserializeBlob data spare = .ok (h, rest)) :
    h.isNativeLanguage = decide (data.getD 0 0 ≠ 0) ∧
      h.languageID.val = be32Value ((data.drop 1).take 4) ∧
      h.languageVersionID.val = be32Value ((data.drop 5).take 4) ∧
      h.languageTypeID.val = be32Value ((data.drop 9).take 4) ∧
      h.codeTypeID.val = be32Value ((data.drop 13).take 4) ∧
      19 + be16Value (((data ++ spare).drop 17).take 2) ≤ data.length + spare.length ∧
      DecodeString (((data ++ spare).drop 19).take
        (be16Value (((data ++ spare).drop 17).take 2))) = some h.codeID := by
  obtain ⟨d, _, _, hin, hdec, hh, _⟩ := DeserializeBlob_ok_inv data spare h rest hok
  have hL : lengthAt (data ++ spare) = be16Value (((data ++ spare).drop 17).take 2) :=
    bigEndianUint16_eq _
  rw [hL] at hin hdec
  refine ⟨?_, ?_, ?_, ?_, ?_, hin, hdec⟩
  · rw [hh]
    rfl
  · rw [hh]
    exact bigEndianUint32_val _
  · rw [hh]
    exact bigEndianUint32_val _
  · rw [hh]
    exact bigEndianUint32_val _
  · rw [hh]
    exact bigEndianUint32_val _

/-- On a slice whose capacity is its length, a successful decode has its length prefix
and its identifier inside the elements. -/
theorem DeserializeBlob_field_parsing_cap_eq_len (data : List Byte) (h : ObjectHeader)
    (rest : List Byte) (hok : DeserializeBlob data [] = .ok (h, rest)) :
    19 + be16Value ((data.drop 17).take 2) ≤ data.length ∧
      DecodeString ((data.drop 19).take (be16Value ((data.drop 17).take 2)))
        = some h.codeID := by
  have := DeserializeBlob_field_parsing data [] h rest hok
  simp only [List.append_nil, List.length_nil, Nat.add_zero] at this
  exact ⟨this.2.2.2.2.2.1, this.2.2.2.2.2.2⟩

/-- C10, at the slice of 18 elements, 17 bytes `01` and one `00`, whose backing array
goes on with `04` and `YWJj` (capacity 23): the decoder succeeds and returns the
identifier `abc` and an empty payload. The length prefix 4 and the identifier are
read from the backing array beyond the length of the slice: `19 + 4` exceeds the length
18, and the bytes of the slice from offset 19 on are none, which decode to the empty
identifier, not to `abc`. -/
theorem DeserializeBlob_reads_past_len :
    DeserializeBlob [1, 1, 1, 1, 1, 1, 1, 1, 1, 1, 1, 1, 1, 1, 1, 1, 1, 0] [4, 89, 87, 74, 106]
        = .ok (⟨true, 16843009, 16843009, 16843009, 16843009, [97, 98, 99]⟩, []) ∧
      ([1, 1, 1, 1, 1, 1, 1, 1, 1, 1, 1, 1, 1, 1, 1, 1, 1, 0] : List Byte).length = 18 ∧
      lengthAt (([1, 1, 1, 1, 1, 1, 1, 1, 1, 1, 1, 1, 1, 1, 1, 1, 1, 0] : List Byte) ++ [4, 89, 87,
          74, 106]) = 4 ∧
      ¬ (19 + 4 ≤ ([1, 1, 1, 1, 1, 1, 1, 1, 1, 1, 1, 1, 1, 1, 1, 1, 1, 0] : List Byte).length) ∧
      be16Value ((List.drop 17 ([1, 1, 1, 1, 1, 1, 1, 1, 1, 1, 1, 1, 1, 1, 1, 1, 1, 0] : List
          Byte)).take 2) = 0 ∧
      ¬ (19 + be16Value ((List.drop 17 ([1, 1, 1, 1, 1, 1, 1, 1, 1, 1, 1, 1, 1, 1, 1, 1, 1, 0] :
          List Byte)).take 2)
        ≤ ([1, 1, 1, 1, 1, 1, 1, 1, 1, 1, 1, 1, 1, 1, 1, 1, 1, 0] : List Byte).length) ∧
      DecodeString ((List.drop 19 ([1, 1, 1, 1, 1, 1, 1, 1, 1, 1, 1, 1, 1, 1, 1, 1, 1, 0] : List
          Byte)).take
        (be16Value ((List.drop 17 ([1, 1, 1, 1, 1, 1, 1, 1, 1, 1, 1, 1, 1, 1, 1, 1, 1, 0] : List
            Byte)).take 2))) = some [] ∧
      DecodeString ((List.drop 19 (([1, 1, 1, 1, 1, 1, 1, 1, 1, 1, 1, 1, 1, 1, 1, 1, 1, 0] : List
          Byte) ++ [4, 89, 87, 74, 106])).take 4)
        = some [97, 98, 99] := by
  decide

/-- C11: when the decoder succeeds, whatever the spare capacity of the input, the input
is a zero-free part, then a zero byte, then exactly the returned payload: the payload is
the suffix of the input that starts one byte after the first zero byte, whatever the
length prefix says, and its length is the input length minus the index of that zero
byte minus one. -/
theorem DeserializeBlob_residual_payload (data spare : List Byte) (h : ObjectHeader)
    (rest : List Byte) (hok : DeserializeBlob data spare = .ok (h, rest)) :
    ∃ pre : List Byte, data = pre ++ 0 :: rest ∧ (∀ b ∈ pre, b ≠ 0) ∧
      IndexByte data PacketNullByte = some pre.length ∧
      rest = data.drop (pre.length + 1) ∧
      rest.length = data.length - pre.length - 1 := by
  obtain ⟨d, hd, _, _, _, _, hr⟩ := DeserializeBlob_ok_inv data spare h rest hok
  obtain ⟨h1, h2, h3⟩ := IndexByte_some_split _ _ _ hd
  refine ⟨data.take d, ?_, h2, ?_, ?_, ?_⟩
  · rw [hr]
    exact h1
  · rw [h3]
    exact hd
  · rw [h3]
    exact hr
  · rw [h3, hr, List.length_drop]
    omega

/-- C11 at the slice of 18 elements, 17 bytes `01` and one `00`, whose backing array
goes on with `04` and `YWJj`: the decoder succeeds, the first zero byte is at index 17,
the last element, and the payload is empty, although the length prefix read is 4. -/
theorem DeserializeBlob_residual_payload_witness :
    DeserializeBlob [1, 1, 1, 1, 1, 1, 1, 1, 1, 1, 1, 1, 1, 1, 1, 1, 1, 0] [4, 89, 87, 74, 106]
        = .ok (⟨true, 16843009, 16843009, 16843009, 16843009, [97, 98, 99]⟩, []) ∧
      ∃ pre : List Byte,
        ([1, 1, 1, 1, 1, 1, 1, 1, 1, 1, 1, 1, 1, 1, 1, 1, 1, 0] : List Byte) = pre ++ 0 :: [] ∧
        (∀ b ∈ pre, b ≠ 0) ∧
        IndexByte [1, 1, 1, 1, 1, 1, 1, 1, 1, 1, 1, 1, 1, 1, 1, 1, 1, 0] PacketNullByte
          = some pre.length ∧
        ([] : List Byte) = List.drop (pre.length + 1)
          [1, 1, 1, 1, 1, 1, 1, 1, 1, 1, 1, 1, 1, 1, 1, 1, 1, 0] ∧
        ([] : List Byte).length
          = ([1, 1, 1, 1, 1, 1, 1, 1, 1, 1, 1, 1, 1, 1, 1, 1, 1, 0] : List Byte).length
            - pre.length - 1 :=
  ⟨by decide,
    DeserializeBlob_residual_payload [1, 1, 1, 1, 1, 1, 1, 1, 1, 1, 1, 1, 1, 1, 1, 1, 1, 0]
      [4, 89, 87, 74, 106] ⟨true, 16843009, 16843009, 16843009, 16843009, [97, 98, 99]⟩ [] (by decide)⟩

/-! ## What the base64 decoder accepts -/

set_option maxRecDepth 100000 in
theorem isAlphabet_of_decodeMap : ∀ c : Byte, decodeMap c ≠ 255 → isAlphabet c = true := by
  decide

theorem stripNewlines_cons_keep (c : Byte) (rest : List Byte) (h10 : c ≠ 10) (h13 : c ≠ 13) :
    stripNewlines (c :: rest) = c :: stripNewlines rest := by
  simp [stripNewlines, List.filter_cons, h10, h13]

theorem stripNewlines_cons_drop (c : Byte) (rest : List Byte) (h : c = 10 ∨ c = 13) :
    stripNewlines (c :: rest) = stripNewlines rest := by
  rcases h with rfl | rfl <;> simp [stripNewlines, List.filter_cons]

theorem stripNewlines_skipNewlines (l : List Byte) :
    stripNewlines (skipNewlines l) = stripNewlines l := by
  induction l with
  | nil => rfl
  | cons c rest ih =>
    by_cases h : c = 10 ∨ c = 13
    · simp only [skipNewlines, if_pos h]
      rw [ih, stripNewlines_cons_drop c rest h]
    · simp only [skipNewlines, if_neg h]

theorem stripNewlines_of_skipNewlines_nil (l : List Byte) (h : (skipNewlines l).length = 0) :
    stripNewlines l = [] := by
  rw [← stripNewlines_skipNewlines, List.length_eq_zero.1 h]
  rfl

/-- Whatever the decoder accepts is, once `\n` and `\r` are removed, a padded base64
string; `k` stands for the alphabet characters of the current group that were read
before `s`. -/
theorem validPadded_of_decodeFrom :
    ∀ (s dbuf k : List Byte), decodeFrom s dbuf ≠ none → dbuf.length ≤ 3 →
      k.length = dbuf.length → (∀ c ∈ k, isAlphabet c = true) →
      validPadded (k ++ stripNewlines s) = true := by
  intro s
  induction s with
  | nil =>
    intro dbuf k hdec _ hk _
    by_cases h0 : dbuf.length = 0
    · rw [h0] at hk
      rw [List.length_eq_zero.1 hk]
      rfl
    · simp [decodeFrom, h0] at hdec
  | cons c rest ih =>
    intro dbuf k hdec hle hk hal
    rw [decodeFrom] at hdec
    by_cases hm : decodeMap c ≠ 255
    · rw [if_pos hm] at hdec
      have hc : isAlphabet c = true := isAlphabet_of_decodeMap c hm
      have h10 : c ≠ 10 := by
        intro h
        subst h
        exact hm (by decide)
      have h13 : c ≠ 13 := by
        intro h
        subst h
        exact hm (by decide)
      rw [stripNewlines_cons_keep c rest h10 h13]
      by_cases h3 : dbuf.length = 3
      · rw [if_pos h3] at hdec
        have hrest : decodeFrom rest [] ≠ none := by
          intro hn
          rw [hn] at hdec
          exact hdec rfl
        have hv := ih [] [] hrest (by simp) rfl (by simp)
        rw [List.nil_append] at hv
        rw [h3] at hk
        obtain ⟨k0, k1, k2, rfl⟩ := List.length_eq_three.1 hk
        have a0 := hal k0 (by simp)
        have a1 := hal k1 (by simp)
        have a2 := hal k2 (by simp)
        simp only [List.cons_append, List.nil_append, validPadded, a0, a1, a2, hc, hv,
          Bool.true_and, Bool.and_self, Bool.true_or, ite_self]
      · rw [if_neg h3] at hdec
        have hv := ih (dbuf ++ [decodeMap c]) (k ++ [c]) hdec
          (by simp only [List.length_append, List.length_singleton]; omega)
          (by simp only [List.length_append, List.length_singleton, hk])
          (by
            intro x hx
            rcases List.mem_append.1 hx with hx | hx
            · exact hal x hx
            · rw [List.mem_singleton.1 hx]
              exact hc)
        rw [List.append_assoc] at hv
        exact hv
    · rw [if_neg hm] at hdec
      by_cases hnl : c = 10 ∨ c = 13
      · rw [if_pos hnl] at hdec
        rw [stripNewlines_cons_drop c rest hnl]
        exact ih dbuf k hdec hle hk hal
      · rw [if_neg hnl] at hdec
        by_cases hp : c ≠ padChar
        · rw [if_pos hp] at hdec
          exact absurd rfl hdec
        · rw [if_neg hp] at hdec
          have hcp : c = padChar := not_not.1 hp
          subst hcp
          rw [stripNewlines_cons_keep padChar rest (by decide) (by decide)]
          by_cases h2 : dbuf.length < 2
          · rw [if_pos h2] at hdec
            exact absurd rfl hdec
          · rw [if_neg h2] at hdec
            by_cases he : dbuf.length = 2
            · rw [if_pos he] at hdec
              rw [he] at hk
              obtain ⟨k0, k1, rfl⟩ := List.length_eq_two.1 hk
              have a0 := hal k0 (by simp)
              have a1 := hal k1 (by simp)
              cases hs : skipNewlines rest with
              | nil =>
                rw [hs] at hdec
                exact absurd rfl hdec
              | cons c2 rest2 =>
                rw [hs] at hdec
                simp only at hdec
                by_cases hp2 : c2 ≠ padChar
                · rw [if_pos hp2] at hdec
                  exact absurd rfl hdec
                · rw [if_neg hp2] at hdec
                  have hc2 : c2 = padChar := not_not.1 hp2
                  subst hc2
                  by_cases hg : (skipNewlines rest2).length ≠ 0
                  · rw [if_pos hg] at hdec
                    exact absurd rfl hdec
                  · have hr2 := stripNewlines_of_skipNewlines_nil rest2 (not_not.1 hg)
                    have hr : stripNewlines rest = [padChar] := by
                      rw [← stripNewlines_skipNewlines, hs,
                        stripNewlines_cons_keep padChar rest2 (by decide) (by decide), hr2]
                    rw [hr]
                    simp [validPadded, a0, a1]
            · rw [if_neg he] at hdec
              have h3 : k.length = 3 := by omega
              obtain ⟨k0, k1, k2, rfl⟩ := List.length_eq_three.1 h3
              have a0 := hal k0 (by simp)
              have a1 := hal k1 (by simp)
              have a2 := hal k2 (by simp)
              by_cases hg : (skipNewlines rest).length ≠ 0
              · rw [if_pos hg] at hdec
                exact absurd rfl hdec
              · have hr := stripNewlines_of_skipNewlines_nil rest (not_not.1 hg)
                rw [hr]
                simp [validPadded, a0, a1, a2]

/-- Text that, once `\n` and `\r` are removed, is not a padded base64 string is
rejected by the decoder. -/
theorem DecodeString_none_of_not_validPadded (s : List Byte)
    (h : validPadded (stripNewlines s) = false) : DecodeString s = none := by
  by_contra hne
  have := validPadded_of_decodeFrom s [] [] hne (by simp) rfl (by simp)
  rw [List.nil_append, h] at this
  cases this

/-- C12, as stated, fails at the 24-byte input of 17 bytes `01`, then `00 05`, then
`YWJj` and a line feed: the first zero byte is at index 17, the length prefix is 5 and
`[19, 24)` lies inside the input, the five identifier bytes are not a padded base64
string, and yet the decoder succeeds, whatever the spare capacity, with the identifier
`abc`: Go's base64 decoder skips `\n` and `\r`. -/
theorem DeserializeBlob_accepts_line_feed :
    IndexByte [1, 1, 1, 1, 1, 1, 1, 1, 1, 1, 1, 1, 1, 1, 1, 1, 1, 0, 5, 89, 87, 74, 106, 10]
        PacketNullByte = some 17 ∧
      be16Value ((List.drop 17 ([1, 1, 1, 1, 1, 1, 1, 1, 1, 1, 1, 1, 1, 1, 1, 1, 1, 0, 5, 89, 87,
          74, 106, 10] : List Byte)).take 2) = 5 ∧
      19 + 5 ≤ ([1, 1, 1, 1, 1, 1, 1, 1, 1, 1, 1, 1, 1, 1, 1, 1, 1, 0, 5, 89, 87, 74, 106, 10] :
          List Byte).length ∧
      (List.drop 19 ([1, 1, 1, 1, 1, 1, 1, 1, 1, 1, 1, 1, 1, 1, 1, 1, 1, 0, 5, 89, 87, 74, 106, 10]
          : List Byte)).take 5 = [89, 87, 74, 106, 10] ∧
      validPadded [89, 87, 74, 106, 10] = false ∧
      ∀ spare : List Byte,
        DeserializeBlob [1, 1, 1, 1, 1, 1, 1, 1, 1, 1, 1, 1, 1, 1, 1, 1, 1, 0, 5, 89, 87, 74, 106,
            10] spare = .ok (⟨true, 16843009, 16843009, 16843009, 16843009, [97, 98, 99]⟩, [5, 89,
            87, 74, 106, 10]) := by
  refine ⟨by decide, by decide, by decide, by decide, by decide, ?_⟩
  intro spare
  rw [DeserializeBlob_spare _ spare (by decide)]
  decide

/-- C12, amended: on an input whose first zero byte is at index 17 or later, whose
length prefix `L` is at most 65516 and whose identifier range `[19, 19+L)` lies inside
the input, if the identifier bytes with every `\n` and `\r` removed are not a padded
base64 string of the standard alphabet, the decoder returns the error "failed to decode
codeID", and so no header and no payload, whatever the spare capacity. -/
theorem DeserializeBlob_malformed_identifier (pre post spare : List Byte)
    (hpre : ∀ b ∈ pre, b ≠ 0) (h17 : 17 ≤ pre.length)
    (hL : be16Value (((pre ++ 0 :: post).drop 17).take 2) ≤ 65516)
    (hin : 19 + be16Value (((pre ++ 0 :: post).drop 17).take 2) ≤ (pre ++ 0 :: post).length)
    (hbad : validPadded (stripNewlines (((pre ++ 0 :: post).drop 19).take
      (be16Value (((pre ++ 0 :: post).drop 17).take 2)))) = false) :
    DeserializeBlob (pre ++ 0 :: post) spare = .error .codeIDDecodeFailed := by
  have hd : IndexByte (pre ++ 0 :: post) PacketNullByte = some pre.length :=
    IndexByte_append PacketNullByte post pre hpre
  have hLa : lengthAt (pre ++ 0 :: post)
      = be16Value (((pre ++ 0 :: post).drop 17).take 2) := bigEndianUint16_eq _
  rw [← hLa] at hL hin hbad
  have hno : toU16 (19 + lengthAt (pre ++ 0 :: post)) = 19 + lengthAt (pre ++ 0 :: post) := by
    unfold toU16
    omega
  rw [DeserializeBlob_delim_ge_17_within _ spare _ hd h17 (by omega) (by omega) (by omega),
    hno, List.drop_take]
  simp only [Nat.add_sub_cancel_left]
  rw [DecodeString_none_of_not_validPadded _ hbad]

/-- C12, amended, at the 22-byte input of 17 bytes `01`, then `00 03`, then `YWJ`, in a
slice without spare capacity and in a slice whose backing array goes on with `41 41`:
three characters are not a padded base64 string, and the decoder returns the identifier
decoding error. -/
theorem DeserializeBlob_malformed_identifier_witness :
    DeserializeBlob ([1, 1, 1, 1, 1, 1, 1, 1, 1, 1, 1, 1, 1, 1, 1, 1, 1] ++ 0 :: [3, 89, 87, 74]) []
        = .error .codeIDDecodeFailed ∧
      DeserializeBlob ([1, 1, 1, 1, 1, 1, 1, 1, 1, 1, 1, 1, 1, 1, 1, 1, 1] ++ 0 :: [3, 89, 87, 74]) [65, 65]
        = .error .codeIDDecodeFailed :=
  ⟨DeserializeBlob_malformed_identifier [1, 1, 1, 1, 1, 1, 1, 1, 1, 1, 1, 1, 1, 1, 1, 1, 1] [3, 89, 87, 74] []
      (by simp) (by decide) (by decide) (by decide) (by decide),
    DeserializeBlob_malformed_identifier [1, 1, 1, 1, 1, 1, 1, 1, 1, 1, 1, 1, 1, 1, 1, 1, 1] [3, 89, 87, 74] [65, 65]
      (by simp) (by decide) (by decide) (by decide) (by decide)⟩

/-- C13: for the header `{true, 0x01010101, 0x01010101, 0x01010101, 0x01010101, ""}`
and the empty payload, the encoder returns 20 bytes whose first zero byte is at index
17, the high byte of the length prefix, not at `19 + L = 19`; decoding them, whatever
the spare capacity, succeeds without error, returns the same header, and returns the
payload `[0x00, 0x00]` instead of the empty payload. -/
theorem roundTrip_silent_payload_divergence :
    ∃ (h : ObjectHeader) (p bs rest : List Byte),
      h = ⟨true, 16843009, 16843009, 16843009, 16843009, []⟩ ∧ p = [] ∧
      SerializeBlob (some h) p = .ok bs ∧
      IndexByte bs PacketNullByte = some 17 ∧
      17 ≠ 19 + (EncodeToString h.codeID).length ∧
      (∀ spare : List Byte, DeserializeBlob bs spare = .ok (h, rest)) ∧
      (∀ spare : List Byte, roundTrip h p spare = .ok (h, rest)) ∧
      rest = [0, 0] ∧ rest ≠ p := by
  have hs : SerializeBlob (some ⟨true, 16843009, 16843009, 16843009, 16843009, []⟩) []
      = .ok [1, 1, 1, 1, 1, 1, 1, 1, 1, 1, 1, 1, 1, 1, 1, 1, 1, 0, 0, 0] := by decide
  have hall : ∀ spare : List Byte,
      DeserializeBlob [1, 1, 1, 1, 1, 1, 1, 1, 1, 1, 1, 1, 1, 1, 1, 1, 1, 0, 0, 0] spare
        = .ok (⟨true, 16843009, 16843009, 16843009, 16843009, []⟩, [0, 0]) := by
    intro spare
    rw [DeserializeBlob_spare _ spare (by decide)]
    decide
  refine ⟨⟨true, 16843009, 16843009, 16843009, 16843009, []⟩, [],
    [1, 1, 1, 1, 1, 1, 1, 1, 1, 1, 1, 1, 1, 1, 1, 1, 1, 0, 0, 0], [0, 0],
    rfl, rfl, hs, by decide, by decide, hall, ?_, rfl, by decide⟩
  intro spare
  rw [roundTrip_eq _ _ spare _ hs]
  exact hall spare

/-! ## The shape of a decoded header -/

theorem getD_take_drop (data : List Byte) (lo n i : Nat) (hi : i < n) :
    ((data.drop lo).take n).getD i 0 = data.getD (lo + i) 0 := by
  simp only [List.getD_eq_getElem?_getD, List.getElem?_take, hi, List.getElem?_drop]
  simp

theorem getD_ne_zero_of_split (pre post : List Byte) (hpre : ∀ b ∈ pre, b ≠ 0) (i : Nat)
    (hi : i < pre.length) : (pre ++ 0 :: post).getD i 0 ≠ 0 := by
  rw [List.getD_eq_getElem?_getD, List.getElem?_append_left hi, List.getElem?_eq_getElem hi]
  exact hpre _ (List.getElem_mem _)

/-- The big-endian form of the value read from a buffer is the buffer's first four
bytes. -/
theorem be32_bigEndianUint32 (b : List Byte) :
    be32 (bigEndianUint32 b).val = [b.getD 0 0, b.getD 1 0, b.getD 2 0, b.getD 3 0] := by
  have h0 := (b.getD 0 0).isLt
  have h1 := (b.getD 1 0).isLt
  have h2 := (b.getD 2 0).isLt
  have h3 := (b.getD 3 0).isLt
  rw [bigEndianUint32_val]
  simp only [be32, be32Value, toByte]
  congr 1
  · apply Fin.ext
    simp only
    omega
  · congr 1
    · apply Fin.ext
      simp only
      omega
    · congr 1
      · apply Fin.ext
        simp only
        omega
      · congr 1
        apply Fin.ext
        simp only
        omega

/-- A value read from four non-zero bytes: its big-endian form has no zero byte and it
is at least 0x01010101. -/
theorem bigEndianUint32_forced (data : List Byte) (lo : Nat)
    (hnz : ∀ i, i < 4 → data.getD (lo + i) 0 ≠ 0) :
    (∀ b ∈ be32 (bigEndianUint32 ((data.drop lo).take 4)).val, b ≠ 0) ∧
      16843009 ≤ (bigEndianUint32 ((data.drop lo).take 4)).val := by
  have g0 := getD_take_drop data lo 4 0 (by decide)
  have g1 := getD_take_drop data lo 4 1 (by decide)
  have g2 := getD_take_drop data lo 4 2 (by decide)
  have g3 := getD_take_drop data lo 4 3 (by decide)
  have n0 := hnz 0 (by decide)
  have n1 := hnz 1 (by decide)
  have n2 := hnz 2 (by decide)
  have n3 := hnz 3 (by decide)
  rw [← g0] at n0
  rw [← g1] at n1
  rw [← g2] at n2
  rw [← g3] at n3
  refine ⟨?_, ?_⟩
  · rw [be32_bigEndianUint32]
    intro b hb
    simp only [List.mem_cons, List.mem_singleton, List.not_mem_nil, or_false] at hb
    rcases hb with rfl | rfl | rfl | rfl
    · exact n0
    · exact n1
    · exact n2
    · exact n3
  · rw [bigEndianUint32_val]
    unfold be32Value
    have p0 : 0 < (((data.drop lo).take 4).getD 0 0).val := by
      rcases Nat.eq_zero_or_pos (((data.drop lo).take 4).getD 0 0).val with h | h
      · exact absurd (Fin.ext h) n0
      · exact h
    have p1 : 0 < (((data.drop lo).take 4).getD 1 0).val := by
      rcases Nat.eq_zero_or_pos (((data.drop lo).take 4).getD 1 0).val with h | h
      · exact absurd (Fin.ext h) n1
      · exact h
    have p2 : 0 < (((data.drop lo).take 4).getD 2 0).val := by
      rcases Nat.eq_zero_or_pos (((data.drop lo).take 4).getD 2 0).val with h | h
      · exact absurd (Fin.ext h) n2
      · exact h
    have p3 : 0 < (((data.drop lo).take 4).getD 3 0).val := by
      rcases Nat.eq_zero_or_pos (((data.drop lo).take 4).getD 3 0).val with h | h
      · exact absurd (Fin.ext h) n3
      · exact h
    omega

/-- C14: when the decoder succeeds, whatever the spare capacity of the input, the flag
of the returned header is true, and each
of its four integers has no zero byte in its big-endian form and is at least
0x01010101: the seventeen bytes they are read from all lie before the first zero byte
of the input. -/
theorem DeserializeBlob_forced_shape (data spare : List Byte) (h : ObjectHeader)
    (rest : List Byte) (hok : DeserializeBlob data spare = .ok (h, rest)) :
    h.isNativeLanguage = true ∧
      (∀ b ∈ be32 h.languageID.val, b ≠ 0) ∧
      (∀ b ∈ be32 h.languageVersionID.val, b ≠ 0) ∧
      (∀ b ∈ be32 h.languageTypeID.val, b ≠ 0) ∧
      (∀ b ∈ be32 h.codeTypeID.val, b ≠ 0) ∧
      16843009 ≤ h.languageID.val ∧ 16843009 ≤ h.languageVersionID.val ∧
      16843009 ≤ h.languageTypeID.val ∧ 16843009 ≤ h.codeTypeID.val := by
  obtain ⟨d, hd, h17, _, _, hh, _⟩ := DeserializeBlob_ok_inv data spare h rest hok
  obtain ⟨h1, h2, h3⟩ := IndexByte_some_split _ _ _ hd
  have hnz : ∀ i, i < 17 → data.getD i 0 ≠ 0 := by
    intro i hi
    rw [h1]
    exact getD_ne_zero_of_split _ _ h2 i (by rw [h3]; omega)
  have f1 := bigEndianUint32_forced data 1 (fun i hi => hnz (1 + i) (by omega))
  have f2 := bigEndianUint32_forced data 5 (fun i hi => hnz (5 + i) (by omega))
  have f3 := bigEndianUint32_forced data 9 (fun i hi => hnz (9 + i) (by omega))
  have f4 := bigEndianUint32_forced data 13 (fun i hi => hnz (13 + i) (by omega))
  rw [hh]
  simp only [headerAt]
  exact ⟨by simpa using hnz 0 (by decide), f1.1, f2.1, f3.1, f4.1, f1.2, f2.2, f3.2, f4.2⟩

/-- C14 at the slice of 18 elements, 17 bytes `01` and one `00`, whose backing array
goes on with `04` and `YWJj`: the decoder succeeds, and the decoded header has the flag
set and the four integers 0x01010101. -/
theorem DeserializeBlob_forced_shape_witness :
    DeserializeBlob [1, 1, 1, 1, 1, 1, 1, 1, 1, 1, 1, 1, 1, 1, 1, 1, 1, 0] [4, 89, 87, 74, 106] =
        .ok (⟨true, 16843009, 16843009, 16843009, 16843009, [97, 98, 99]⟩, []) ∧
      (ObjectHeader.mk true 16843009 16843009 16843009 16843009 [97, 98, 99]).isNativeLanguage
        = true ∧
      16843009 ≤ (ObjectHeader.mk true 16843009 16843009 16843009 16843009
        [97, 98, 99]).languageID.val :=
  ⟨by decide,
    (DeserializeBlob_forced_shape [1, 1, 1, 1, 1, 1, 1, 1, 1, 1, 1, 1, 1, 1, 1, 1, 1, 0] [4, 89,
        87, 74, 106] ⟨true, 16843009, 16843009, 16843009, 16843009, [97, 98, 99]⟩ [] (by decide)).1,
    (DeserializeBlob_forced_shape [1, 1, 1, 1, 1, 1, 1, 1, 1, 1, 1, 1, 1, 1, 1, 1, 1, 0] [4, 89,
        87, 74, 106] ⟨true, 16843009, 16843009, 16843009, 16843009, [97, 98, 99]⟩ []
      (by decide)).2.2.2.2.2.1⟩

/-! ## The round trip where it holds -/

theorem be32_16843009_ne_zero : ∀ b ∈ be32 16843009, b ≠ 0 := by
  intro b hb
  simp only [be32, List.mem_cons, List.mem_singleton, List.not_mem_nil, or_false] at hb
  rcases hb with rfl | rfl | rfl | rfl <;> decide

theorem EncodeToString_replicate_195 :
    (EncodeToString (List.replicate 195 97)).length = 260 := by
  rw [EncodeToString_length, List.length_replicate]

theorem be16_ne_zero_of_eq_260 (n : Nat) (h : n = 260) : ∀ b ∈ be16 n, b ≠ 0 := by
  subst h
  intro b hb
  simp only [be16, List.mem_cons, List.mem_singleton, List.not_mem_nil, or_false] at hb
  rcases hb with rfl | rfl <;> decide

/-- C15: for a header whose flag is set, whose four integers have no zero byte in their
big-endian form, and whose identifier has a padded base64 length `L` of at most 65516
with both bytes of the big-endian form of `L` non-zero, and for every payload, with or
without zero bytes, decoding the encoder's output, whatever its spare capacity,
succeeds and returns exactly the header and the payload. -/
theorem roundTrip_exact_conditions (h : ObjectHeader) (p spare : List Byte)
    (hflag : h.isNativeLanguage = true)
    (h1 : ∀ b ∈ be32 h.languageID.val, b ≠ 0)
    (h2 : ∀ b ∈ be32 h.languageVersionID.val, b ≠ 0)
    (h3 : ∀ b ∈ be32 h.languageTypeID.val, b ≠ 0)
    (h4 : ∀ b ∈ be32 h.codeTypeID.val, b ≠ 0)
    (hL : (EncodeToString h.codeID).length ≤ 65516)
    (hl : ∀ b ∈ be16 (EncodeToString h.codeID).length, b ≠ 0) :
    roundTrip h p spare = .ok (h, p) := by
  have hU : toU16 (EncodeToString h.codeID).length = (EncodeToString h.codeID).length := by
    unfold toU16
    omega
  have hU2 : toU16 (19 + (EncodeToString h.codeID).length)
      = 19 + (EncodeToString h.codeID).length := by
    unfold toU16
    omega
  rw [← putUint32_eq_be32] at h1 h2 h3 h4
  rw [← putUint16_eq_be16, ← hU] at hl
  rw [roundTrip_of_nonzero_head h p spare hflag h1 h2 h3 h4 hl, hU, hU2, if_neg (by omega)]
  simp only [Nat.add_sub_cancel_left]
  rw [List.take_left' rfl, DecodeString_EncodeToString]

/-- C15 at the header `{true, 0x01010101, 0x01010101, 0x01010101, 0x01010101, code_id}`
with a `code_id` of 195 bytes (each the letter `a`, padded base64 length 260 = 0x0104)
and the payload `[0x00, 0xAA]`, which contains a zero byte. -/
theorem roundTrip_exact_conditions_witness :
    (EncodeToString (List.replicate 195 97)).length = 260 ∧
      ∀ spare : List Byte,
        roundTrip ⟨true, 16843009, 16843009, 16843009, 16843009, List.replicate 195 97⟩
            [0x00, 0xAA] spare
          = .ok (⟨true, 16843009, 16843009, 16843009, 16843009, List.replicate 195 97⟩,
            [0x00, 0xAA]) :=
  ⟨EncodeToString_replicate_195, fun spare =>
    roundTrip_exact_conditions
      ⟨true, 16843009, 16843009, 16843009, 16843009, List.replicate 195 97⟩ [0x00, 0xAA]
      spare rfl
      be32_16843009_ne_zero be32_16843009_ne_zero be32_16843009_ne_zero be32_16843009_ne_zero
      (le_of_eq_of_le EncodeToString_replicate_195 (by decide))
      (be16_ne_zero_of_eq_260 _ EncodeToString_replicate_195)⟩

/-! ## Injectivity of the encoder -/

theorem writeBool_inj (a b : Bool) (h : writeBool a = writeBool b) : a = b := by
  cases a <;> cases b <;> first | rfl | (exact absurd h (by decide))

theorem putUint32_inj (a b : U32) (h : putUint32 a = putUint32 b) : a = b := by
  rw [← bigEndianUint32_putUint32 a, ← bigEndianUint32_putUint32 b, h]

theorem EncodeToString_inj (a b : List Byte) (h : EncodeToString a = EncodeToString b) :
    a = b := by
  have ha := DecodeString_EncodeToString a
  rw [h, DecodeString_EncodeToString] at ha
  exact (Option.some.inj ha).symm

/-- Two zero-free sequences, each followed by a zero byte and a tail: if the wholes are
equal, so are the sequences and the tails. -/
theorem append_zero_inj (e1 e2 p1 p2 : List Byte) (h1 : ∀ b ∈ e1, b ≠ 0)
    (h2 : ∀ b ∈ e2, b ≠ 0) (h : e1 ++ 0 :: p1 = e2 ++ 0 :: p2) : e1 = e2 ∧ p1 = p2 := by
  have i1 := IndexByte_append 0 p1 e1 h1
  have i2 := IndexByte_append 0 p2 e2 h2
  rw [h, i2] at i1
  have hlen : e1.length = e2.length := (Option.some.inj i1).symm
  obtain ⟨ha, hb⟩ := List.append_inj h hlen
  exact ⟨ha, (List.cons.inj hb).2⟩

/-- C17: the encoder is injective on headers that are present: equal outputs come from
equal headers, field by field, and equal payloads, with no bound on the identifier
length. -/
theorem SerializeBlob_injective (h1 h2 : ObjectHeader) (p1 p2 : List Byte)
    (heq : SerializeBlob (some h1) p1 = SerializeBlob (some h2) p2) :
    h1 = h2 ∧ p1 = p2 ∧ h1.isNativeLanguage = h2.isNativeLanguage ∧
      h1.languageID = h2.languageID ∧ h1.languageVersionID = h2.languageVersionID ∧
      h1.languageTypeID = h2.languageTypeID ∧ h1.codeTypeID = h2.codeTypeID ∧
      h1.codeID = h2.codeID := by
  rw [SerializeBlob_some, SerializeBlob_some] at heq
  have e0 := GoResult.ok.inj heq
  obtain ⟨ef, e1⟩ := List.append_inj e0 (by simp [writeBool])
  obtain ⟨ea, e2⟩ := List.append_inj e1 (by simp [putUint32])
  obtain ⟨eb, e3⟩ := List.append_inj e2 (by simp [putUint32])
  obtain ⟨ec, e4⟩ := List.append_inj e3 (by simp [putUint32])
  obtain ⟨ed, e5⟩ := List.append_inj e4 (by simp [putUint32])
  obtain ⟨_, e6⟩ := List.append_inj e5 (by simp [putUint16])
  obtain ⟨eE, ep⟩ := append_zero_inj _ _ _ _ (EncodeToString_ne_zero h1.codeID)
    (EncodeToString_ne_zero h2.codeID) e6
  have hf := writeBool_inj _ _ ef
  have ha := putUint32_inj _ _ ea
  have hb := putUint32_inj _ _ eb
  have hc := putUint32_inj _ _ ec
  have hd := putUint32_inj _ _ ed
  have hE := EncodeToString_inj _ _ eE
  refine ⟨?_, ep, hf, ha, hb, hc, hd, hE⟩
  cases h1
  cases h2
  simp only at hf ha hb hc hd hE
  subst hf ha hb hc hd hE
  rfl

/-- C17 at two encodings of the header `{true, 1, 2, 3, 4, "abc"}` with the payload
`[0xAA, 0xBB]`. -/
theorem SerializeBlob_injective_witness :
    SerializeBlob (some ⟨true, 1, 2, 3, 4, [97, 98, 99]⟩) [0xAA, 0xBB]
        = SerializeBlob (some ⟨true, 1, 2, 3, 4, [97, 98, 99]⟩) [0xAA, 0xBB] ∧
      (⟨true, 1, 2, 3, 4, [97, 98, 99]⟩ : ObjectHeader) = ⟨true, 1, 2, 3, 4, [97, 98, 99]⟩ ∧
      ([0xAA, 0xBB] : List Byte) = [0xAA, 0xBB] :=
  ⟨rfl,
    (SerializeBlob_injective ⟨true, 1, 2, 3, 4, [97, 98, 99]⟩ ⟨true, 1, 2, 3, 4, [97, 98, 99]⟩
      [0xAA, 0xBB] [0xAA, 0xBB] rfl).1,
    (SerializeBlob_injective ⟨true, 1, 2, 3, 4, [97, 98, 99]⟩ ⟨true, 1, 2, 3, 4, [97, 98, 99]⟩
      [0xAA, 0xBB] [0xAA, 0xBB] rfl).2.1⟩

/-! ## The effective minimum delimiter position -/

/-- C18: on an input whose first zero byte is at an index from 13 to 16, whatever
follows it and whatever its spare capacity, the decoder returns the error of the
`codeTypeID` read, `EOF` when no byte lies between offset 13 and the delimiter and
`unexpected EOF` otherwise, and so no header and no payload; and whenever the decoder
succeeds, the first zero byte of the input is at index 17 or later. -/
theorem DeserializeBlob_effective_minimum :
    (∀ pre post spare : List Byte, (∀ b ∈ pre, b ≠ 0) → 13 ≤ pre.length → pre.length ≤ 16 →
        DeserializeBlob (pre ++ 0 :: post) spare
          = .error (if pre.length = 13 then .EOF else .ErrUnexpectedEOF)) ∧
      (∀ (data spare : List Byte) (h : ObjectHeader) (rest : List Byte),
        DeserializeBlob data spare = .ok (h, rest) →
          ∃ pre post : List Byte, data = pre ++ 0 :: post ∧ (∀ b ∈ pre, b ≠ 0) ∧
            17 ≤ pre.length) := by
  refine ⟨?_, ?_⟩
  · intro pre post spare hpre h13 h16
    exact DeserializeBlob_delim_13_16 _ spare _
      (IndexByte_append PacketNullByte post pre hpre) h13 (by omega)
  · intro data spare h rest hok
    obtain ⟨d, hd, h17, _, _, _, _⟩ := DeserializeBlob_ok_inv data spare h rest hok
    obtain ⟨h1, h2, h3⟩ := IndexByte_some_split _ _ _ hd
    exact ⟨data.take d, data.drop (d + 1), h1, h2, by rw [h3]; exact h17⟩

/-- C18 at the inputs of 13 and of 16 bytes `01` followed by `00 02 03 04 05 06`, with
any spare capacity: the first zero byte is at index 13 and at index 16, and the decoder
returns `EOF` and `unexpected EOF`; and at the slice of 17 bytes `01` and one `00` whose
backing array goes on with `04` and `YWJj`, where the decoder succeeds with its first
zero byte at index 17. -/
theorem DeserializeBlob_effective_minimum_witness :
    (∀ spare : List Byte,
        DeserializeBlob ([1, 1, 1, 1, 1, 1, 1, 1, 1, 1, 1, 1, 1] ++ 0 :: [2, 3, 4, 5, 6]) spare =
            .error .EOF) ∧
      (∀ spare : List Byte,
        DeserializeBlob ([1, 1, 1, 1, 1, 1, 1, 1, 1, 1, 1, 1, 1, 1, 1, 1] ++ 0 :: [2, 3, 4, 5, 6])
            spare = .error .ErrUnexpectedEOF) ∧
      DeserializeBlob [1, 1, 1, 1, 1, 1, 1, 1, 1, 1, 1, 1, 1, 1, 1, 1, 1, 0] [4, 89, 87, 74, 106] =
          .ok (⟨true, 16843009, 16843009, 16843009, 16843009, [97, 98, 99]⟩, []) ∧
      ∃ pre post : List Byte, ([1, 1, 1, 1, 1, 1, 1, 1, 1, 1, 1, 1, 1, 1, 1, 1, 1, 0] : List Byte)
          = pre ++ 0 :: post ∧ (∀ b ∈ pre, b ≠ 0) ∧
        17 ≤ pre.length :=
  ⟨fun spare => DeserializeBlob_effective_minimum.1 [1, 1, 1, 1, 1, 1, 1, 1, 1, 1, 1, 1, 1] [2, 3,
      4, 5, 6] spare
      (by simp) (by decide) (by decide),
    fun spare => DeserializeBlob_effective_minimum.1 [1, 1, 1, 1, 1, 1, 1, 1, 1, 1, 1, 1, 1, 1, 1,
        1] [2, 3, 4, 5, 6] spare
      (by simp) (by decide) (by decide),
    by decide,
    DeserializeBlob_effective_minimum.2 [1, 1, 1, 1, 1, 1, 1, 1, 1, 1, 1, 1, 1, 1, 1, 1, 1, 0] [4,
        89, 87, 74, 106] ⟨true, 16843009, 16843009, 16843009, 16843009, [97, 98, 99]⟩ [] (by
        decide)⟩

/-! ## Short identifiers -/

theorem IndexByte_le_of_getD (c : Byte) :
    ∀ (data : List Byte) (i : Nat), i < data.length → data.getD i 0 = c →
      ∃ d, IndexByte data c = some d ∧ d ≤ i := by
  intro data
  induction data with
  | nil => intro i hi; simp at hi
  | cons b rest ih =>
    intro i hi hg
    by_cases hb : b = c
    · exact ⟨0, by simp [IndexByte, hb], Nat.zero_le _⟩
    · cases i with
      | zero =>
        simp only [List.getD_cons_zero] at hg
        exact absurd hg hb
      | succ k =>
        simp only [List.getD_cons_succ] at hg
        simp only [List.length_cons] at hi
        obtain ⟨d, hd, hle⟩ := ih k (by omega) hg
        exact ⟨d + 1, by simp [IndexByte, hb, hd], by omega⟩

theorem IndexByte_some_getD (c : Byte) (data : List Byte) (d : Nat)
    (h : IndexByte data c = some d) : data.getD d 0 = c := by
  obtain ⟨h1, _, h3⟩ := IndexByte_some_split c data d h
  have e : data.getD d 0 = (data.take d ++ c :: data.drop (d + 1)).getD d 0 := by
    rw [← h1]
  rw [e, List.getD_eq_getElem?_getD, List.getElem?_append_right (by rw [h3]), h3]
  simp

/-- The decoder on nineteen bytes followed by a decodable `E`, a zero byte and `p`, when
the length prefix is the length of `E` and the first zero byte is at index 17 or 18. -/
theorem DeserializeBlob_early_delimiter (data spare E p c : List Byte) (d : Nat)
    (hdrop : data.drop 19 = E ++ 0 :: p) (hlen : data.length = 20 + E.length + p.length)
    (hL : lengthAt data = E.length) (hE : E.length ≤ 65516)
    (hdec : DecodeString E = some c)
    (hd : IndexByte data PacketNullByte = some d) (h17 : 17 ≤ d) :
    DeserializeBlob data spare = .ok (headerAt data c, data.drop (d + 1)) := by
  have hno : toU16 (19 + E.length) = 19 + E.length := by
    unfold toU16
    omega
  rw [DeserializeBlob_delim_ge_17_within data spare d hd h17 (by omega)
    (by rw [hL, hno]; omega) (by rw [hL, hno]; omega), hL, hno, List.drop_take, hdrop]
  simp only [Nat.add_sub_cancel_left]
  rw [List.take_left' rfl, hdec]

/-- What the encoder writes for an identifier of at most 191 bytes. -/
theorem SerializeBlob_short_facts (h : ObjectHeader) (p : List Byte)
    (hL : (EncodeToString h.codeID).length ≤ 256) :
    ∃ data, SerializeBlob (some h) p = .ok data ∧
      data.length = 20 + (EncodeToString h.codeID).length + p.length ∧
      lengthAt data = (EncodeToString h.codeID).length ∧
      data.getD 17 0 = toByte ((EncodeToString h.codeID).length >>> 8) ∧
      data.getD 18 0 = toByte (EncodeToString h.codeID).length ∧
      data.drop 18 = toByte (EncodeToString h.codeID).length
        :: (EncodeToString h.codeID ++ 0 :: p) ∧
      data.drop 19 = EncodeToString h.codeID ++ 0 :: p := by
  have hU : toU16 (EncodeToString h.codeID).length = (EncodeToString h.codeID).length := by
    unfold toU16
    omega
  have h16 := bigEndianUint16_putUint16 (EncodeToString h.codeID).length (by omega)
  refine ⟨_, SerializeBlob_some h p, ?_, ?_, ?_, ?_, ?_, ?_⟩
  · simp only [writeBool, putUint32, putUint16, List.cons_append, List.nil_append,
      List.length_cons, List.length_append]
    omega
  · rw [hU]
    simp only [lengthAt, writeBool, putUint32, List.cons_append, List.nil_append,
      List.drop_succ_cons, List.drop_zero]
    have : List.take 2 (putUint16 (EncodeToString h.codeID).length
        ++ (EncodeToString h.codeID ++ PacketNullByte :: p))
        = putUint16 (EncodeToString h.codeID).length := by
      simp [putUint16]
    rw [this, h16]
  · rw [hU]
    simp [writeBool, putUint32, putUint16]
  · rw [hU]
    simp [writeBool, putUint32, putUint16]
  · rw [hU]
    simp [writeBool, putUint32, putUint16, PacketNullByte]
  · simp [writeBool, putUint32, putUint16, PacketNullByte]

set_option maxRecDepth 1000000 in
/-- C16, as stated, fails at the header
`{true, 0x01010101, 0x01010101, 0x01010101, 0x01010101, code_id}` with a `code_id` of 190
bytes (each the letter `a`) and the payload `[0xAA]`: 190 is at most 191, but the
padded base64 length is 256, not below 256, and the length prefix is `01 00`, so its
high byte is not zero; the first zero byte is the low length byte, and the decoder
returns, whatever the spare capacity, the encoded identifier, the delimiter and the
payload, without the low length byte in front. -/
theorem roundTrip_identifier_190_bytes :
    (List.replicate 190 97 : List Byte).length ≤ 191 ∧
      (EncodeToString (List.replicate 190 97)).length = 256 ∧
      putUint16 (toU16 (EncodeToString (List.replicate 190 97)).length) = [1, 0] ∧
      ∀ spare : List Byte,
        roundTrip ⟨true, 16843009, 16843009, 16843009, 16843009, List.replicate 190 97⟩
            [0xAA] spare
          = .ok (⟨true, 16843009, 16843009, 16843009, 16843009, List.replicate 190 97⟩,
            EncodeToString (List.replicate 190 97) ++ [0, 0xAA]) := by
  refine ⟨by decide, by decide, by decide, ?_⟩
  intro spare
  rw [roundTrip_spare _ _ spare (by decide)]
  decide

/-- C16, amended: for a header whose identifier has at most 191 bytes, the padded
base64 length `L` is at most 256, so the length prefix contains a zero byte, and
decoding the encoder's output, whatever its spare capacity, never gives the header and
the payload back: it returns an error, or it succeeds with a payload strictly longer
than `p`. That payload is the
low length byte, the encoded identifier, the delimiter and `p` when the identifier has
at most 189 bytes, and the encoded identifier, the delimiter and `p` when it has 190 or
191 bytes. -/
theorem roundTrip_short_identifier (h : ObjectHeader) (p spare : List Byte)
    (hn : h.codeID.length ≤ 191) :
    (EncodeToString h.codeID).length ≤ 256 ∧
      roundTrip h p spare ≠ .ok (h, p) ∧
      ((∃ e, roundTrip h p spare = .error e) ∨
        (∃ (h2 : ObjectHeader) (rest : List Byte), roundTrip h p spare = .ok (h2, rest) ∧
          p.length < rest.length ∧
          (h.codeID.length ≤ 189 →
            rest = toByte (EncodeToString h.codeID).length
              :: (EncodeToString h.codeID ++ 0 :: p)) ∧
          (190 ≤ h.codeID.length → rest = EncodeToString h.codeID ++ 0 :: p))) := by
  have hLen := EncodeToString_length h.codeID
  have hL : (EncodeToString h.codeID).length ≤ 256 := by omega
  obtain ⟨data, hdata, hlen, hlenAt, hg17, hg18, hdrop18, hdrop19⟩ :=
    SerializeBlob_short_facts h p hL
  have hrt : roundTrip h p spare = DeserializeBlob data spare :=
    roundTrip_eq h p spare data hdata
  have key : (∃ e, DeserializeBlob data spare = .error e) ∨
      (∃ (h2 : ObjectHeader) (rest : List Byte), DeserializeBlob data spare = .ok (h2, rest) ∧
        p.length < rest.length ∧
        (h.codeID.length ≤ 189 →
          rest = toByte (EncodeToString h.codeID).length
            :: (EncodeToString h.codeID ++ 0 :: p)) ∧
        (190 ≤ h.codeID.length → rest = EncodeToString h.codeID ++ 0 :: p)) := by
    have hzero : ∃ d, IndexByte data PacketNullByte = some d ∧ d ≤ 18 ∧
        (h.codeID.length ≤ 189 → d ≤ 17) := by
      by_cases h189 : h.codeID.length ≤ 189
      · have hz : data.getD 17 0 = 0 := by
          rw [hg17, Nat.shiftRight_eq_div_pow]
          apply Fin.ext
          simp only [toByte, Fin.val_zero]
          omega
        obtain ⟨d, hd, hle⟩ := IndexByte_le_of_getD 0 data 17 (by omega) hz
        exact ⟨d, hd, by omega, fun _ => hle⟩
      · have hz : data.getD 18 0 = 0 := by
          rw [hg18]
          apply Fin.ext
          simp only [toByte, Fin.val_zero]
          omega
        obtain ⟨d, hd, hle⟩ := IndexByte_le_of_getD 0 data 18 (by omega) hz
        exact ⟨d, hd, hle, fun hc => absurd hc h189⟩
    obtain ⟨d, hd, hd18, hd17⟩ := hzero
    by_cases h13 : d < 13
    · left
      have h0 : ¬ data.length < 1 := by omega
      exact ⟨.headerTooShort, by simp [DeserializeBlob, h0, hd, h13]⟩
    · by_cases h17 : d < 17
      · left
        exact ⟨_, DeserializeBlob_delim_13_16 data spare d hd (by omega) h17⟩
      · right
        refine ⟨headerAt data h.codeID, data.drop (d + 1),
          DeserializeBlob_early_delimiter data spare _ p h.codeID d hdrop19 hlen hlenAt
            (by omega)
            (DecodeString_EncodeToString h.codeID) hd (by omega), ?_, ?_, ?_⟩
        · rw [List.length_drop]
          omega
        · intro h189
          have : d = 17 := by
            have := hd17 h189
            omega
          subst this
          exact hdrop18
        · intro h190
          have hne : d ≠ 17 := by
            intro h17e
            subst h17e
            have hz := IndexByte_some_getD _ _ _ hd
            rw [hg17, Nat.shiftRight_eq_div_pow] at hz
            have hv := congrArg Fin.val hz
            simp only [toByte, PacketNullByte, Fin.val_zero] at hv
            omega
          have : d = 18 := by omega
          subst this
          exact hdrop19
  rw [hrt]
  refine ⟨hL, ?_, key⟩
  intro hbad
  rcases key with ⟨e, he⟩ | ⟨h2, rest, hr, hlt, _, _⟩
  · rw [he] at hbad
    cases hbad
  · rw [hr] at hbad
    have := GoResult.ok.inj hbad
    have hp : rest = p := congrArg Prod.snd this
    rw [hp] at hlt
    exact Nat.lt_irrefl _ hlt

/-- C16, amended, at the header `{true, 1, 2, 3, 4, "abc"}` with the payload
`[0xAA, 0xBB]`: the identifier has 3 bytes and the round trip, whatever the spare
capacity, does not give the header and the payload back. -/
theorem roundTrip_short_identifier_witness :
    (ObjectHeader.mk true 1 2 3 4 [97, 98, 99]).codeID.length ≤ 191 ∧
      ∀ spare : List Byte,
        roundTrip ⟨true, 1, 2, 3, 4, [97, 98, 99]⟩ [0xAA, 0xBB] spare
          ≠ .ok (⟨true, 1, 2, 3, 4, [97, 98, 99]⟩, [0xAA, 0xBB]) :=
  ⟨by decide, fun spare =>
    (roundTrip_short_identifier ⟨true, 1, 2, 3, 4, [97, 98, 99]⟩ [0xAA, 0xBB] spare
      (by decide)).2.1⟩

end Objects
